import Mathlib

/-!
# Round settlement of the meritocracy public-goods game

Shallow embedding of `game/client_types/includes/logic.callbacks.js`.

Numbers are exact rationals; the non-finite results a JavaScript division can
produce are kept as separate constructors of `JsNum`.  Arrays are lists, plain
objects used as dictionaries are association lists in property order, and a
`TypeError` raised by the interpreter is the error case of `Except`.
-/

namespace PGG

/-! ## Values -/

/-- A JavaScript number as the settlement code can produce it from finite
inputs: a finite value (exact), an infinity, or `NaN`. -/
inductive JsNum where
  | fin (q : ℚ)
  | posInf
  | negInf
  | nan
  deriving DecidableEq, Repr

namespace JsNum

/-- The operator `a + b`. -/
def add : JsNum → JsNum → JsNum
  | fin a, fin b => fin (a + b)
  | nan, _ => nan
  | _, nan => nan
  | posInf, negInf => nan
  | negInf, posInf => nan
  | posInf, _ => posInf
  | _, posInf => posInf
  | negInf, _ => negInf
  | _, negInf => negInf

/-- Unary minus. -/
def neg : JsNum → JsNum
  | fin a => fin (-a)
  | posInf => negInf
  | negInf => posInf
  | nan => nan

/-- The operator `a - b`. -/
def sub (a b : JsNum) : JsNum := add a (neg b)

/-- The operator `a / b` (signed zeros are not tracked: a zero divisor counts
as `+0`). -/
def div : JsNum → JsNum → JsNum
  | fin a, fin b =>
      if b = 0 then (if a = 0 then nan else if 0 < a then posInf else negInf)
      else fin (a / b)
  | nan, _ => nan
  | _, nan => nan
  | fin _, _ => fin 0
  | posInf, fin b => if 0 ≤ b then posInf else negInf
  | negInf, fin b => if 0 ≤ b then negInf else posInf
  | _, _ => nan

/-- The call `Math.pow(a, 2)`. -/
def sq : JsNum → JsNum
  | fin a => fin (a ^ 2)
  | nan => nan
  | _ => posInf

end JsNum

/-- The errors the interpreter raises in this code. -/
inductive JsError where
  | typeError
  deriving DecidableEq, Repr

/-- The settings the module reads at load time (`settings.*`), and the flag
`ENDO`, which the file reads without declaring it. -/
structure Settings where
  SUBGROUP_SIZE : Nat
  GROUP_NAMES : List String
  GROUP_ACCOUNT_DIVIDER : ℚ
  INITIAL_COINS : ℚ
  ENDO : Bool

/-- A contribution object of the game memory: the fields the code reads, and
the field `group` that `doGroupMatching` writes (`none` is `undefined`). -/
structure Entry where
  player : String
  contribution : ℚ
  demand : Option ℚ
  group : Option String
  deriving DecidableEq, Repr

/-- A two-element array `[contribution, demand]` of the bars. -/
abbrev Bar := ℚ × Option ℚ

/-- The array `[entry.contribution, entry.demand]`. -/
def Entry.bar (e : Entry) : Bar := (e.contribution, e.demand)

/-! ## Payoff -/

/-- The reducer `computeGroupAccount(prev, curr)`: `prev + curr[0]`. -/
def computeGroupAccount (prev : ℚ) (curr : Bar) : ℚ :=
  prev + curr.1

/-- The function `getPayoff(bars, position)`.  Reading `bars[position[0]]`
outside the array gives `undefined`, whose `.reduce` raises a `TypeError`; so
does `group[position[1]][0]` outside the group. -/
def getPayoff (s : Settings) (bars : List (List Bar)) (position : Nat × Nat) :
    Except JsError JsNum :=
  match bars[position.1]? with
  | none => .error .typeError
  | some group =>
    let payoff : JsNum := .fin (group.foldl computeGroupAccount 0)
    let payoff := JsNum.div payoff (.fin s.GROUP_ACCOUNT_DIVIDER)
    match group[position.2]? with
    | none => .error .typeError
    | some bar => .ok (JsNum.add (JsNum.sub (.fin s.INITIAL_COINS) (.fin bar.1)) payoff)

/-! ## Group matching -/

/-- The assignment `xs[i] = v` on an array.  A negative index names a plain
property and leaves the elements alone.  In `doGroupMatching` the index is the
number of groups opened so far, which is the length of the array: the
assignment appends. -/
def arrayAssign {α : Type} (xs : List α) (i : Int) (v : α) : List α :=
  if i < 0 then xs
  else if i.toNat < xs.length then xs.set i.toNat v
  else xs ++ [v]

/-- The call `xss[i].push(x)`: a `TypeError` when `xss[i]` is `undefined`. -/
def pushAt {α : Type} (xss : List (List α)) (i : Int) (x : α) :
    Except JsError (List (List α)) :=
  if i < 0 then .error .typeError
  else
    match xss[i.toNat]? with
    | none => .error .typeError
    | some g => .ok (xss.set i.toNat (g ++ [x]))

/-- The read `groupNames[i]`: `undefined` outside the array. -/
def nameAt (names : List String) (i : Int) : Option String :=
  if i < 0 then none else names[i.toNat]?

/-- The locals of `doGroupMatching` while its loop runs; `sortedContribs` holds
the entries visited so far as the loop leaves them (the loop writes their
`group` field in place). -/
structure MatchState where
  gId : Int
  groups : List (List Entry)
  ranking : List String
  bars : List (List Bar)
  sortedContribs : List Entry
  deriving DecidableEq, Repr

/-- The object `doGroupMatching` returns, and the argument array as the call
leaves it. -/
structure Matching where
  groups : List (List Entry)
  ranking : List String
  bars : List (List Bar)
  sortedContribs : List Entry
  deriving DecidableEq, Repr

/-- One iteration of the loop of `doGroupMatching`, at index `i` on `e`.
`i % SUBGROUP_SIZE` is `NaN` for a zero size, and `NaN == 0` is false. -/
def doGroupMatching.step (s : Settings) (i : Nat) (st : MatchState) (e : Entry) :
    Except JsError MatchState :=
  let opened := decide (s.SUBGROUP_SIZE ≠ 0 ∧ i % s.SUBGROUP_SIZE = 0)
  let gId := if opened then st.gId + 1 else st.gId
  let groups := if opened then arrayAssign st.groups gId [] else st.groups
  let bars := if opened then arrayAssign st.bars gId [] else st.bars
  let entry : Entry := { e with group := nameAt s.GROUP_NAMES gId }
  match pushAt groups gId entry with
  | .error err => .error err
  | .ok groups =>
    let ranking := st.ranking ++ [entry.player]
    match pushAt bars gId entry.bar with
    | .error err => .error err
    | .ok bars =>
      .ok { gId := gId, groups := groups, ranking := ranking, bars := bars,
            sortedContribs := st.sortedContribs ++ [entry] }

/-- The loop `for (i = 0; i < len; i++)` of `doGroupMatching`, from index `i`
over the entries not yet visited. -/
def doGroupMatching.loop (s : Settings) :
    Nat → List Entry → MatchState → Except JsError MatchState
  | _, [], st => .ok st
  | i, e :: rest, st =>
    match doGroupMatching.step s i st e with
    | .error err => .error err
    | .ok st => doGroupMatching.loop s (i + 1) rest st

/-- The function `doGroupMatching(sortedContribs)`. -/
def doGroupMatching (s : Settings) (sortedContribs : List Entry) :
    Except JsError Matching :=
  match doGroupMatching.loop s 0 sortedContribs
      { gId := -1, groups := [], ranking := [], bars := [], sortedContribs := [] } with
  | .error err => .error err
  | .ok st =>
    .ok { groups := st.groups, ranking := st.ranking, bars := st.bars,
          sortedContribs := st.sortedContribs }

/-- Specification of the group sizes for `n` entries and subgroup size `k`:
`n / k` full groups, then the remainder when there is one. -/
def groupSizes (k n : Nat) : List Nat :=
  List.replicate (n / k) k ++ (if n % k = 0 then [] else [n % k])

/-- Specification of the labelling: the entry at rank `i` carries the label at
index `i / SUBGROUP_SIZE`, the other fields are those of the input. -/
def labelFrom (s : Settings) : Nat → List Entry → List Entry
  | _, [] => []
  | i, e :: rest =>
    { e with group := s.GROUP_NAMES[i / s.SUBGROUP_SIZE]? } :: labelFrom s (i + 1) rest

/-! ## Plain objects used as dictionaries -/

/-- The read `o[key]` on a plain object held as the list of its own
properties in creation order; `none` is `undefined`.  Keys are taken to be
neither array indices nor names inherited from `Object.prototype`, as holds
for the identifiers the server generates and for the group labels. -/
def objGet {α : Type} : List (String × α) → String → Option α
  | [], _ => none
  | (k, v) :: rest, key => if k = key then some v else objGet rest key

/-- The assignment `o[key] = v`: an existing property keeps its place, a new
one is created last. -/
def objSet {α : Type} : List (String × α) → String → α → List (String × α)
  | [], key, v => [(key, v)]
  | (k, w) :: rest, key, v =>
    if k = key then (k, v) :: rest else (k, w) :: objSet rest key v

/-! ## Deduplication of the submissions (in `sendResults`) -/

/-- One iteration of the first loop of `sendResults`, on the submission `c`:
`if (!o[c.player]) ++newSize; o[c.player] = c`. -/
def sendResults.dedupStep (acc : List (String × Entry) × Nat) (c : Entry) :
    List (String × Entry) × Nat :=
  let newSize := if (objGet acc.1 c.player).isNone then acc.2 + 1 else acc.2
  (objSet acc.1 c.player c, newSize)

/-- The deduplication block of `sendResults` on the database `receivedData.db`
(in arrival order): when `newSize` differs from the number of submissions the
database is rebuilt from the own properties of `o`, otherwise it is kept. -/
def sendResults.deduplicate (receivedData : List Entry) : List Entry :=
  let acc := receivedData.foldl sendResults.dedupStep ([], 0)
  if acc.2 ≠ receivedData.length then acc.1.map Prod.snd else receivedData

/-- Specification: the submission of `player` that comes last in the log. -/
def lastSubmission (log : List Entry) (player : String) : Option Entry :=
  log.reverse.find? (fun c => decide (c.player = player))

/-! ## Ranking -/

/-- The source of `Math.random()`: the sequence of draws of the run and the
number of draws taken so far. -/
structure Rng where
  draws : Nat → ℚ
  used : Nat

/-- The call `Math.random()`: the next draw and the advanced source. -/
def mathRandom (r : Rng) : ℚ × Rng :=
  (r.draws r.used, { r with used := r.used + 1 })

/-- The comparator `sortContributions(c1, c2)`; `Math.random()` is called only
when the two contributions are equal. -/
def sortContributions (c1 c2 : Entry) (r : Rng) : Int × Rng :=
  if c1.contribution > c2.contribution then (-1, r)
  else if c1.contribution < c2.contribution then (1, r)
  else if (mathRandom r).1 ≤ 1 / 2 then (-1, (mathRandom r).2)
  else (1, (mathRandom r).2)

/-- Modelled from the spec: the inner loop of the comparator-based sort of the
host, which is not in the repository.  `element` is moved towards the front of
the sorted prefix, given back to front in `revPrefix`, past every `tmp` for
which the comparator answers a positive number. -/
def hostSort.insert (cmp : Entry → Entry → Rng → Int × Rng) (element : Entry) :
    List Entry → Rng → List Entry × Rng
  | [], r => ([element], r)
  | tmp :: rest, r =>
    let order := cmp tmp element r
    if order.1 > 0 then
      let moved := hostSort.insert cmp element rest order.2
      (tmp :: moved.1, moved.2)
    else (element :: tmp :: rest, order.2)

/-- Modelled from the spec: the comparator-based sort of the host
(`receivedData.sort(cmp).fetch()`, which hands the comparator to the sort of
the array), not in the repository.  It is taken to be an insertion sort: the
elements are inserted one by one, left to right, into the sorted prefix, and
every comparison is a call of the comparator. -/
def hostSort (cmp : Entry → Entry → Rng → Int × Rng) (xs : List Entry) (r : Rng) :
    List Entry × Rng :=
  let acc := xs.foldl
    (fun (acc : List Entry × Rng) element => hostSort.insert cmp element acc.1 acc.2)
    ([], r)
  (acc.1.reverse, acc.2)

/-- The steps of `sendResults` up to the matching: deduplicate, sort with
`sortContributions`, `doGroupMatching`. -/
def sendResults.matching (s : Settings) (receivedData : List Entry) (r : Rng) :
    Except JsError Matching :=
  let receivedData := sendResults.deduplicate receivedData
  let sortedContribs := (hostSort sortContributions receivedData r).1
  doGroupMatching s sortedContribs

/-! ## Group statistics -/

/-- A value stored in the statistics of a group: the string `'NA'`, a number,
or `Math.sqrt(radicand)`, which is kept unevaluated since a root is in general
not rational. -/
inductive StatValue where
  | NA
  | num (v : JsNum)
  | sqrt (radicand : JsNum)
  deriving DecidableEq, Repr

/-- Whether the value is a number (`typeof v === 'number'`) and not the
string `'NA'`. -/
def StatValue.isNumber : StatValue → Bool
  | .NA => false
  | .num _ => true
  | .sqrt _ => true

/-- Whether the value is `NaN`; `Math.sqrt` gives `NaN` on a negative
argument and on `NaN`. -/
def StatValue.isNaN : StatValue → Bool
  | .NA => false
  | .num .nan => true
  | .num _ => false
  | .sqrt (.fin r) => decide (r < 0)
  | .sqrt .posInf => false
  | .sqrt _ => true

/-- Whether the value is a number that is greater than or equal to zero. -/
def StatValue.isNonNegNumber : StatValue → Bool
  | .NA => false
  | .num (.fin q) => decide (0 ≤ q)
  | .num .posInf => true
  | .num _ => false
  | .sqrt (.fin r) => decide (0 ≤ r)
  | .sqrt .posInf => true
  | .sqrt _ => false

/-- The object stored under a group name by `computeGroupStats`. -/
structure GroupStats where
  avgContr : StatValue
  stdContr : StatValue
  avgDemand : StatValue
  stdDemand : StatValue
  deriving DecidableEq, Repr

/-- The accumulators of the inner loop of `computeGroupStats`. -/
structure Sums where
  cSum : ℚ
  cSumSquared : ℚ
  dSum : JsNum
  dSumSquared : JsNum
  deriving DecidableEq, Repr

/-- The field `entry.demand` read as a number: `undefined` gives `NaN` in the
sum and in `Math.pow`. -/
def demandNum : Option ℚ → JsNum
  | none => .nan
  | some q => .fin q

/-- One iteration of the inner loop of `computeGroupStats`:
`cSum += entry.contribution; cSumSquared = Math.pow(entry.contribution, 2)`,
and the same on the demand when `ENDO` holds. -/
def computeGroupStats.inner (s : Settings) (acc : Sums) (entry : Entry) : Sums :=
  { cSum := acc.cSum + entry.contribution
    cSumSquared := entry.contribution ^ 2
    dSum := if s.ENDO then JsNum.add acc.dSum (demandNum entry.demand) else acc.dSum
    dSumSquared := if s.ENDO then JsNum.sq (demandNum entry.demand) else acc.dSumSquared }

/-- The accumulators after the inner loop over a group. -/
def computeGroupStats.sums (s : Settings) (group : List Entry) : Sums :=
  group.foldl (computeGroupStats.inner s)
    { cSum := 0, cSumSquared := 0, dSum := .fin 0, dSumSquared := .fin 0 }

/-- The expression `(sumSquared - (Math.pow(sum, 2) / lenJ)) / df`. -/
def computeGroupStats.radicand (sumSquared sum : JsNum) (lenJ df : ℚ) : JsNum :=
  JsNum.div (JsNum.sub sumSquared (JsNum.div (JsNum.sq sum) (.fin lenJ))) (.fin df)

/-- The body of the outer loop of `computeGroupStats`: the object built for
one group. -/
def computeGroupStats.ofGroup (s : Settings) (group : List Entry) : GroupStats :=
  let lenJ : ℚ := (group.length : ℚ)
  let sums := computeGroupStats.sums s group
  let df : ℚ := lenJ - 1
  { avgContr := .num (JsNum.div (.fin sums.cSum) (.fin lenJ))
    stdContr :=
      if df ≤ 1 then .NA
      else .sqrt (computeGroupStats.radicand (.fin sums.cSumSquared) (.fin sums.cSum) lenJ df)
    avgDemand :=
      if s.ENDO then .num (JsNum.div sums.dSum (.fin lenJ)) else .NA
    stdDemand :=
      if s.ENDO then
        (if df ≤ 1 then .NA
         else .sqrt (computeGroupStats.radicand sums.dSumSquared sums.dSum lenJ df))
      else .NA }

/-- The property name that `groupNames[i]` gives: `undefined` is turned into
the string `"undefined"`. -/
def propertyKey : Option String → String
  | some name => name
  | none => "undefined"

/-- The outer loop of `computeGroupStats`, from index `i` over the groups not
yet visited. -/
def computeGroupStats.loop (s : Settings) :
    Nat → List (List Entry) → List (String × GroupStats) → List (String × GroupStats)
  | _, [], out => out
  | i, group :: rest, out =>
    computeGroupStats.loop s (i + 1) rest
      (objSet out (propertyKey s.GROUP_NAMES[i]?) (computeGroupStats.ofGroup s group))

/-- The function `computeGroupStats(groups)`; the result is the object `out`
as the list of its properties. -/
def computeGroupStats (s : Settings) (groups : List (List Entry)) :
    List (String × GroupStats) :=
  computeGroupStats.loop s 0 groups []

/-- Specification: the unbiased sample variance of `xs`,
`(Σ x² - (Σ x)² / n) / (n - 1)`. -/
def sampleVariance (xs : List ℚ) : ℚ :=
  ((xs.map (fun x => x ^ 2)).sum - xs.sum ^ 2 / (xs.length : ℚ)) / ((xs.length : ℚ) - 1)

/-! ## Finalizing the round -/

/-- A client object of the registry: the running balance `win`, `none` while
it is not set. -/
structure Client where
  win : Option JsNum
  deriving DecidableEq, Repr

/-- The arguments of one call `node.say('results', pId, finalBars)`, with
`finalBars = [bars, position, payoff, compatibility]`. -/
structure ResultsMessage where
  recipient : String
  bars : List (List Bar)
  position : Nat × Nat
  payoff : JsNum
  compatibility : Option String
  deriving DecidableEq, Repr

/-- A call of the persistence layer: `node.game.saveRoundResults` or
`node.game.savePlayerValues`, with the arguments that vary. -/
inductive SaveEvent where
  | round (ranking : List String) (groupStats : List (String × GroupStats))
      (noisyRanking : List String) (noisyGroupStats : List (String × GroupStats))
  | player (contribObj : Entry) (playerPayoff : JsNum) (position : Nat × Nat)
  deriving DecidableEq, Repr

/-- What `finalizeRound` acts on outside the module: the clients of the
registry by player id, the messages sent and the calls of the persistence
layer, both in order. -/
structure World where
  registry : List (String × Client)
  said : List ResultsMessage
  saved : List SaveEvent
  deriving DecidableEq, Repr

/-- The state in which a run stops, and the error raised when it stopped on
one. -/
structure Outcome where
  world : World
  error : Option JsError
  deriving DecidableEq, Repr

/-- Modelled from the spec: the lookup `channel.registry.getClient(pId)` of
the host, not in the repository.  A failed lookup answers `false`, which is
`none` here. -/
def getClient (registry : List (String × Client)) (pId : String) : Option Client :=
  objGet registry pId

/-- The test `!code.win`: true for `undefined`, `0` and `NaN`. -/
def notWin : Option JsNum → Bool
  | none => true
  | some (.fin q) => decide (q = 0)
  | some .nan => true
  | some _ => false

/-- The expression `!code.win ? playerPayoff : code.win + playerPayoff`. -/
def newWin (win : Option JsNum) (playerPayoff : JsNum) : JsNum :=
  if notWin win then playerPayoff
  else
    match win with
    | some v => JsNum.add v playerPayoff
    | none => playerPayoff

/-- The function `emitPlayersResults`: one message `results` to `pId`. -/
def emitPlayersResults (pId : String) (bars : List (List Bar)) (position : Nat × Nat)
    (payoff : JsNum) (compatibility : Option String) (w : World) : World :=
  { w with said := w.said ++ [{ recipient := pId, bars := bars, position := position,
                                payoff := payoff, compatibility := compatibility }] }

/-- The body of the inner loop of `finalizeRound` for `noisyGroups[i][j]`.
After a failed lookup `code` is `false`: the guard only writes to the console,
`!code.win` holds, and the assignment `code.win = playerPayoff` on `false` has
no effect, the file not being in strict mode; the lines after it run as for
any other player.  `mongo` tells whether `settings.DB === 'MONGODB'`; the
console output is left out. -/
def finalizeRound.visit (s : Settings) (mongo : Bool) (bars : List (List Bar))
    (compatibility : Option String) (i j : Nat) (contribObj : Entry) (w : World) :
    Outcome :=
  let positionInNoisyRank := (i, j)
  let pId := contribObj.player
  match getPayoff s bars positionInNoisyRank with
  | .error err => { world := w, error := some err }
  | .ok playerPayoff =>
    let w :=
      match getClient w.registry pId with
      | none => w
      | some code =>
        let code : Client := { code with win := some (newWin code.win playerPayoff) }
        { w with registry := objSet w.registry pId code }
    let w :=
      if mongo then
        { w with saved := w.saved ++ [.player contribObj playerPayoff positionInNoisyRank] }
      else w
    { world := emitPlayersResults pId bars positionInNoisyRank playerPayoff compatibility w,
      error := none }

/-- The inner loop of `finalizeRound` over group `i`, from index `j` on the
members not yet visited. -/
def finalizeRound.inner (s : Settings) (mongo : Bool) (bars : List (List Bar))
    (compatibility : Option String) (i : Nat) : Nat → List Entry → World → Outcome
  | _, [], w => { world := w, error := none }
  | j, contribObj :: rest, w =>
    match finalizeRound.visit s mongo bars compatibility i j contribObj w with
    | { world := w, error := some err } => { world := w, error := some err }
    | { world := w, error := none } =>
      finalizeRound.inner s mongo bars compatibility i (j + 1) rest w

/-- The outer loop of `finalizeRound`, from index `i` over the groups not yet
visited. -/
def finalizeRound.outer (s : Settings) (mongo : Bool) (bars : List (List Bar))
    (compatibility : Option String) : Nat → List (List Entry) → World → Outcome
  | _, [], w => { world := w, error := none }
  | i, group :: rest, w =>
    match finalizeRound.inner s mongo bars compatibility i 0 group w with
    | { world := w, error := some err } => { world := w, error := some err }
    | { world := w, error := none } =>
      finalizeRound.outer s mongo bars compatibility (i + 1) rest w

/-- The function `finalizeRound`; `currentStage` and `groups`, which are only
handed on or not read, are left out. -/
def finalizeRound (s : Settings) (mongo : Bool) (bars : List (List Bar))
    (groupStats : List (String × GroupStats)) (ranking : List String)
    (noisyGroupStats : List (String × GroupStats)) (noisyGroups : List (List Entry))
    (noisyRanking : List String) (compatibility : Option String) (w : World) : Outcome :=
  let w :=
    if mongo then
      { w with saved := w.saved ++ [.round ranking groupStats noisyRanking noisyGroupStats] }
    else w
  finalizeRound.outer s mongo bars compatibility 0 noisyGroups w

/-- The function `sendResults` on the submissions of the previous stage: the
matching, the group statistics, then `finalizeRound` with the noisy ranking,
groups and statistics set to the plain ones and no `compatibility`. -/
def sendResults (s : Settings) (mongo : Bool) (receivedData : List Entry) (r : Rng)
    (w : World) : Outcome :=
  match sendResults.matching s receivedData r with
  | .error err => { world := w, error := some err }
  | .ok matching =>
    let groupStats := computeGroupStats s matching.groups
    finalizeRound s mongo matching.bars groupStats matching.ranking
      groupStats matching.groups matching.ranking none w

/-- Specification: the positions `(i, j)` of the members of group `i`, from
index `j`, each with its member. -/
def groupPositions (i : Nat) : Nat → List Entry → List (Nat × Nat × Entry)
  | _, [] => []
  | j, e :: rest => (i, j, e) :: groupPositions i (j + 1) rest

/-- Specification: the positions of all members of the groups, group by group
from index `i`. -/
def roundPositions : Nat → List (List Entry) → List (Nat × Nat × Entry)
  | _, [] => []
  | i, group :: rest => groupPositions i 0 group ++ roundPositions (i + 1) rest

/-- Specification: the balance before the round, `0` when it is not set. -/
def previousWin : Option JsNum → JsNum
  | none => .fin 0
  | some v => v

/-- Specification: the balance after the round from the balance before it and
the payoff: their sum, with `0` for a balance that is not set, but the payoff
alone when the balance before was `NaN`. -/
def creditedWin (win : Option JsNum) (payoff : JsNum) : JsNum :=
  if win = some .nan then payoff else JsNum.add (previousWin win) payoff

/-! ## Loop invariants -/

/-- What holds of the locals of `doGroupMatching` after `i` iterations. -/
structure MatchInv (k i : Nat) (st : MatchState) : Prop where
  gId_eq : st.gId = (st.groups.length : Int) - 1
  sizes : st.groups.map List.length = groupSizes k i
  flatten : st.groups.flatten = st.sortedContribs
  bars : st.bars = st.groups.map (List.map Entry.bar)
  ranking : st.ranking = st.sortedContribs.map Entry.player

/-- What holds of the accumulator of the deduplication loop after the
submissions of `log`. -/
structure DedupInv (log : List Entry) (acc : List (String × Entry) × Nat) : Prop where
  nodup : (acc.1.map Prod.fst).Nodup
  get : ∀ k, objGet acc.1 k = lastSubmission log k
  size : acc.2 = acc.1.length
  le : acc.2 ≤ log.length
  same : acc.2 = log.length → acc.1.map Prod.snd = log

/-- What a run of the loops of `finalizeRound` over the positions `P` does
between the states `w0` and `w1`: the clients of other players are left
alone, the client of each member, when it has one, gets the balance `newWin`
of its old balance and the payoff of its position, a member without client
stays without, and one message per member was sent, in order. -/
structure Credited (s : Settings) (bars : List (List Bar)) (P : List (Nat × Nat × Entry))
    (w0 w1 : World) : Prop where
  frame : ∀ id, id ∉ P.map (fun p => p.2.2.player) →
    getClient w1.registry id = getClient w0.registry id
  credit : ∀ p ∈ P, ∃ v, getPayoff s bars (p.1, p.2.1) = .ok v ∧
    getClient w1.registry p.2.2.player
      = (getClient w0.registry p.2.2.player).map
          (fun code => ({ win := some (newWin code.win v) } : Client))
  said : w1.said.map ResultsMessage.recipient
    = w0.said.map ResultsMessage.recipient ++ P.map (fun p => p.2.2.player)

/-! ## Sample data -/

/-- Settings of a small game: subgroups of two, labels `A` and `B`, divider 2,
ten initial coins, no demand tracking. -/
def sampleSettings : Settings :=
  { SUBGROUP_SIZE := 2, GROUP_NAMES := ["A", "B"], GROUP_ACCOUNT_DIVIDER := 2,
    INITIAL_COINS := 10, ENDO := false }

/-- Five ranked contribution objects. -/
def sampleRanked : List Entry :=
  [⟨"C", 10, none, none⟩, ⟨"A", 6, none, none⟩, ⟨"B", 4, none, none⟩,
   ⟨"D", 2, none, none⟩, ⟨"E", 1, none, none⟩]

/-- A group of three with contributions 1, 2 and 3. -/
def sampleGroup : List Entry :=
  [⟨"P1", 1, none, none⟩, ⟨"P2", 2, none, none⟩, ⟨"P3", 3, none, none⟩]

/-- A raw log in which player `A` submitted twice. -/
def sampleLog : List Entry :=
  [⟨"A", 3, none, none⟩, ⟨"B", 4, none, none⟩, ⟨"C", 10, none, none⟩,
   ⟨"A", 6, none, none⟩, ⟨"D", 4, none, none⟩]

/-- A source of draws that always gives zero. -/
def sampleRng : Rng :=
  { draws := fun _ => 0, used := 0 }

/-- The sample settings with demand tracking switched on. -/
def sampleEndoSettings : Settings :=
  { sampleSettings with ENDO := true }

/-- A group of three with contributions 1, 2, 3 and demands 2, 4, 9. -/
def sampleDemandGroup : List Entry :=
  [⟨"P1", 1, some 2, none⟩, ⟨"P2", 2, some 4, none⟩, ⟨"P3", 3, some 9, none⟩]

/-- A registry and empty logs: `B` has 5 coins, `C` and `D` none yet, and `A`
is not registered. -/
def sampleWorld : World :=
  { registry := [("B", ⟨some (.fin 5)⟩), ("C", ⟨none⟩), ("D", ⟨none⟩)],
    said := [], saved := [] }

/-- The matching of the sample log: `C` and `A` in group `A`, `B` and `D` in
group `B`. -/
def sampleMatching : Matching :=
  { groups := [[⟨"C", 10, none, some "A"⟩, ⟨"A", 6, none, some "A"⟩],
               [⟨"B", 4, none, some "B"⟩, ⟨"D", 4, none, some "B"⟩]],
    ranking := ["C", "A", "B", "D"],
    bars := [[(10, none), (6, none)], [(4, none), (4, none)]],
    sortedContribs := [⟨"C", 10, none, some "A"⟩, ⟨"A", 6, none, some "A"⟩,
                       ⟨"B", 4, none, some "B"⟩, ⟨"D", 4, none, some "B"⟩] }

/-- A registry in which the four players of the sample round are registered:
`B` has 5 coins, the others none yet. -/
def sampleFullWorld : World :=
  { registry := [("A", ⟨none⟩), ("B", ⟨some (.fin 5)⟩), ("C", ⟨none⟩), ("D", ⟨none⟩)],
    said := [], saved := [] }

/-- A registry in which the four players of the sample round are registered
and the balance of `A` is `NaN`. -/
def sampleNaNWorld : World :=
  { registry := [("A", ⟨some .nan⟩), ("B", ⟨some (.fin 5)⟩), ("C", ⟨none⟩), ("D", ⟨none⟩)],
    said := [], saved := [] }

/-- The sample settings with subgroups of three. -/
def sampleTrioSettings : Settings :=
  { sampleSettings with SUBGROUP_SIZE := 3 }

/-- Three ranked contribution objects, with contributions 3, 2 and 1. -/
def sampleTrioRanked : List Entry :=
  [⟨"P1", 3, none, none⟩, ⟨"P2", 2, none, none⟩, ⟨"P3", 1, none, none⟩]

/-- Two groups as `doGroupMatching` labels them: a group of three with
contributions 3, 2, 1 and a group of two with contributions 1, 0. -/
def sampleStatsGroups : List (List Entry) :=
  [[⟨"P1", 3, none, some "A"⟩, ⟨"P2", 2, none, some "A"⟩, ⟨"P3", 1, none, some "A"⟩],
   [⟨"P4", 1, none, some "B"⟩, ⟨"P5", 0, none, some "B"⟩]]

/-- The two groups of `sampleStatsGroups` with the demands 2, 4, 9 and 1, 3. -/
def sampleDemandGroups : List (List Entry) :=
  [[⟨"P1", 3, some 2, some "A"⟩, ⟨"P2", 2, some 4, some "A"⟩, ⟨"P3", 1, some 9, some "A"⟩],
   [⟨"P4", 1, some 1, some "B"⟩, ⟨"P5", 0, some 3, some "B"⟩]]

/-- The settings of the worked example: subgroups of two, ten initial coins,
divider 2, labels that start with `A` and `B`. -/
def exampleSettings (moreNames : List String) (endo : Bool) : Settings :=
  { SUBGROUP_SIZE := 2, GROUP_NAMES := "A" :: "B" :: moreNames, GROUP_ACCOUNT_DIVIDER := 2,
    INITIAL_COINS := 10, ENDO := endo }

/-- The submissions of the worked example: `A` gives 6, `B` 4, `C` 10, `D` 2. -/
def exampleSubmissions : List Entry :=
  [⟨"A", 6, none, none⟩, ⟨"B", 4, none, none⟩, ⟨"C", 10, none, none⟩, ⟨"D", 2, none, none⟩]

/-- The groups of the worked example: `C` and `A` under label `A`, `B` and `D`
under label `B`. -/
def exampleGroups : List (List Entry) :=
  [[⟨"C", 10, none, some "A"⟩, ⟨"A", 6, none, some "A"⟩],
   [⟨"B", 4, none, some "B"⟩, ⟨"D", 2, none, some "B"⟩]]

/-! ## Theorems -/

theorem foldl_computeGroupAccount (group : List Bar) (a : ℚ) :
    group.foldl computeGroupAccount a = a + (group.map Prod.fst).sum := by
  induction group generalizing a with
  | nil => simp
  | cons b bs ih => simp [List.foldl_cons, ih, computeGroupAccount, add_assoc]

/-- C1: at a position that exists in the bars and with a non-zero divider,
`getPayoff` returns `INITIAL_COINS - bars[g][i][0]` plus the sum of the first
components of the whole group divided by `GROUP_ACCOUNT_DIVIDER`. -/
theorem getPayoff_eq (s : Settings) (bars : List (List Bar)) (g i : Nat)
    (hg : g < bars.length) (hi : i < (bars[g]).length)
    (hd : s.GROUP_ACCOUNT_DIVIDER ≠ 0) :
    getPayoff s bars (g, i) =
      .ok (.fin (s.INITIAL_COINS - ((bars[g])[i]).1
        + ((bars[g]).map Prod.fst).sum / s.GROUP_ACCOUNT_DIVIDER)) := by
  simp [getPayoff, List.getElem?_eq_getElem hg, List.getElem?_eq_getElem hi,
    foldl_computeGroupAccount, JsNum.div, JsNum.add, JsNum.sub, JsNum.neg, hd,
    sub_eq_add_neg]

theorem getPayoff_eq_witness :
    getPayoff ⟨2, ["A", "B"], 2, 10, false⟩ [[(10, none), (6, none)]] (0, 1)
      = .ok (.fin (10 - 6 + ([(10 : ℚ), 6]).sum / 2)) := by
  have h := getPayoff_eq ⟨2, ["A", "B"], 2, 10, false⟩ [[(10, none), (6, none)]] 0 1
    (by decide) (by decide) (by norm_num)
  simpa using h

/-! ### Group matching -/

theorem groupSizes_succ (k i : Nat) (hk : 0 < k) :
    groupSizes k (i + 1) = List.replicate (i / k) k ++ [i % k + 1] := by
  have hlt : i % k < k := Nat.mod_lt _ hk
  have hi : i + 1 = k * (i / k) + (i % k + 1) := by
    have := Nat.div_add_mod i k
    omega
  rcases Nat.lt_or_ge (i % k + 1) k with h | h
  · have hd : (i + 1) / k = i / k := by
      rw [hi, Nat.mul_add_div hk, Nat.div_eq_of_lt h, Nat.add_zero]
    have hm : (i + 1) % k = i % k + 1 := by
      rw [hi, Nat.mul_add_mod, Nat.mod_eq_of_lt h]
    simp [groupSizes, hd, hm]
  · have hr : i % k + 1 = k := by omega
    have hi2 : i + 1 = k * (i / k + 1) := by
      rw [Nat.mul_add, Nat.mul_one]; omega
    have hd : (i + 1) / k = i / k + 1 := by
      rw [hi2, Nat.mul_div_cancel_left _ hk]
    have hm : (i + 1) % k = 0 := by
      rw [hi2, Nat.mul_mod_right]
    simp [groupSizes, hd, hm, List.replicate_succ', hr]

theorem arrayAssign_length {α : Type} (xs : List α) (v : α) :
    arrayAssign xs (xs.length : Int) v = xs ++ [v] := by
  simp [arrayAssign]

theorem pushAt_last {α : Type} (xs : List (List α)) (g : List α) (x : α) :
    pushAt (xs ++ [g]) (xs.length : Int) x = .ok (xs ++ [g ++ [x]]) := by
  simp [pushAt, List.set_append]

theorem nameAt_natCast (names : List String) (n : Nat) :
    nameAt names (n : Int) = names[n]? := by
  simp [nameAt]

theorem MatchInv.init (k : Nat) :
    MatchInv k 0
      { gId := -1, groups := [], ranking := [], bars := [], sortedContribs := [] } := by
  constructor <;> simp [groupSizes]

theorem doGroupMatching.step_spec (s : Settings) (hk : 0 < s.SUBGROUP_SIZE)
    (i : Nat) (st : MatchState) (e : Entry) (h : MatchInv s.SUBGROUP_SIZE i st) :
    ∃ st1, doGroupMatching.step s i st e = .ok st1 ∧
      MatchInv s.SUBGROUP_SIZE (i + 1) st1 ∧
      st1.sortedContribs = st.sortedContribs
        ++ [{ e with group := s.GROUP_NAMES[i / s.SUBGROUP_SIZE]? }] := by
  obtain ⟨gId, groups, ranking, bars, sorted⟩ := st
  obtain ⟨hg, hs, hf, hb, hr⟩ := h
  simp only at hg hs hf hb hr
  have hk0 : s.SUBGROUP_SIZE ≠ 0 := Nat.pos_iff_ne_zero.mp hk
  by_cases hm : i % s.SUBGROUP_SIZE = 0
  · -- a new group is opened
    have hlen : groups.length = i / s.SUBGROUP_SIZE := by
      have := congrArg List.length hs
      simpa [groupSizes, hm] using this
    have hgid : gId + 1 = (groups.length : Int) := by omega
    have hnm : nameAt s.GROUP_NAMES (groups.length : Int)
        = s.GROUP_NAMES[i / s.SUBGROUP_SIZE]? := by
      rw [nameAt_natCast, hlen]
    have hbl : (bars.length : Int) = (groups.length : Int) := by
      simp [hb]
    refine ⟨{ gId := (groups.length : Int),
              groups := groups ++ [[{ e with group := s.GROUP_NAMES[i / s.SUBGROUP_SIZE]? }]],
              ranking := ranking ++ [e.player],
              bars := bars ++ [[(e.contribution, e.demand)]],
              sortedContribs := sorted
                ++ [{ e with group := s.GROUP_NAMES[i / s.SUBGROUP_SIZE]? }] }, ?_, ?_, rfl⟩
    · simp only [doGroupMatching.step, hk0, hm, ne_eq, not_false_eq_true, and_self,
        decide_True, if_true, hgid, arrayAssign_length, pushAt_last, hnm]
      rw [← hbl, arrayAssign_length, pushAt_last]
      simp [Entry.bar]
    · constructor
      · simp
      · simp only [List.map_append, hs, groupSizes_succ _ _ hk, hm]
        simp [groupSizes, hm]
      · simp [hf]
      · simp [hb, Entry.bar]
      · simp [hr]
  · -- the entry joins the last group
    have hs2 : groups.map List.length
        = List.replicate (i / s.SUBGROUP_SIZE) s.SUBGROUP_SIZE ++ [i % s.SUBGROUP_SIZE] := by
      simpa [groupSizes, hm] using hs
    rcases List.eq_nil_or_concat groups with hnil | ⟨L, b, hL⟩
    · simp [hnil] at hs2
    · rw [List.concat_eq_append] at hL
      subst hL
      rw [List.map_append] at hs2
      obtain ⟨hL1, hL2⟩ := List.append_inj' hs2 (by simp)
      have hbl : b.length = i % s.SUBGROUP_SIZE := by simpa using hL2
      have hLlen : L.length = i / s.SUBGROUP_SIZE := by
        have := congrArg List.length hL1
        simpa using this
      have hgid : gId = (L.length : Int) := by
        simp at hg; omega
      have hnm : nameAt s.GROUP_NAMES (L.length : Int)
          = s.GROUP_NAMES[i / s.SUBGROUP_SIZE]? := by
        rw [nameAt_natCast, hLlen]
      have hbars : bars = L.map (List.map Entry.bar) ++ [b.map Entry.bar] := by
        simpa using hb
      have hLl : ((L.map (List.map Entry.bar)).length : Int) = (L.length : Int) := by simp
      refine ⟨{ gId := (L.length : Int),
                groups := L ++ [b ++ [{ e with group := s.GROUP_NAMES[i / s.SUBGROUP_SIZE]? }]],
                ranking := ranking ++ [e.player],
                bars := L.map (List.map Entry.bar)
                  ++ [b.map Entry.bar ++ [(e.contribution, e.demand)]],
                sortedContribs := sorted
                  ++ [{ e with group := s.GROUP_NAMES[i / s.SUBGROUP_SIZE]? }] }, ?_, ?_, rfl⟩
      · simp only [doGroupMatching.step, hm, and_false, decide_False, if_false, hgid,
          pushAt_last, hbars, Bool.false_eq_true, hnm]
        rw [← hLl, pushAt_last]
        simp [Entry.bar]
      · constructor
        · simp
        · rw [groupSizes_succ _ _ hk]
          simp [hL1, hbl]
        · simp [← hf]
        · simp [Entry.bar]
        · simp [hr]

theorem doGroupMatching.loop_spec (s : Settings) (hk : 0 < s.SUBGROUP_SIZE)
    (rest : List Entry) (i : Nat) (st : MatchState)
    (h : MatchInv s.SUBGROUP_SIZE i st) :
    ∃ st1, doGroupMatching.loop s i rest st = .ok st1 ∧
      MatchInv s.SUBGROUP_SIZE (i + rest.length) st1 ∧
      st1.sortedContribs = st.sortedContribs ++ labelFrom s i rest := by
  induction rest generalizing i st with
  | nil => exact ⟨st, rfl, by simpa using h, by simp [labelFrom]⟩
  | cons e rest ih =>
    obtain ⟨st1, h1, hinv1, hs1⟩ := doGroupMatching.step_spec s hk i st e h
    obtain ⟨st2, h2, hinv2, hs2⟩ := ih (i + 1) st1 hinv1
    refine ⟨st2, ?_, ?_, ?_⟩
    · simp only [doGroupMatching.loop, h1, h2]
    · have : i + (e :: rest).length = i + 1 + rest.length := by
        simp only [List.length_cons]; omega
      rw [this]; exact hinv2
    · rw [hs2, hs1]; simp [labelFrom]

theorem labelFrom_length (s : Settings) (i : Nat) (xs : List Entry) :
    (labelFrom s i xs).length = xs.length := by
  induction xs generalizing i with
  | nil => rfl
  | cons e rest ih => simp [labelFrom, ih]

theorem labelFrom_map_player (s : Settings) (i : Nat) (xs : List Entry) :
    (labelFrom s i xs).map Entry.player = xs.map Entry.player := by
  induction xs generalizing i with
  | nil => rfl
  | cons e rest ih => simp [labelFrom, ih]

theorem labelFrom_map_bar (s : Settings) (i : Nat) (xs : List Entry) :
    (labelFrom s i xs).map Entry.bar = xs.map Entry.bar := by
  induction xs generalizing i with
  | nil => rfl
  | cons e rest ih => simp [labelFrom, ih, Entry.bar]

/-- The result of `doGroupMatching` for a positive subgroup size: it returns,
and the returned structure is determined by five equations. -/
theorem doGroupMatching_spec (s : Settings) (hk : 0 < s.SUBGROUP_SIZE)
    (xs : List Entry) :
    ∃ r, doGroupMatching s xs = .ok r ∧
      r.sortedContribs = labelFrom s 0 xs ∧
      r.groups.flatten = r.sortedContribs ∧
      r.groups.map List.length = groupSizes s.SUBGROUP_SIZE xs.length ∧
      r.bars = r.groups.map (List.map Entry.bar) ∧
      r.ranking = xs.map Entry.player := by
  obtain ⟨st, h1, hinv, hs⟩ :=
    doGroupMatching.loop_spec s hk xs 0 _ (MatchInv.init s.SUBGROUP_SIZE)
  refine ⟨{ groups := st.groups, ranking := st.ranking, bars := st.bars,
            sortedContribs := st.sortedContribs }, ?_, ?_, ?_, ?_, ?_, ?_⟩
  · simp only [doGroupMatching, h1]
  · simpa using hs
  · exact hinv.flatten
  · simpa using hinv.sizes
  · exact hinv.bars
  · have := hinv.ranking
    simp only [this, hs, List.nil_append, labelFrom_map_player]

theorem groupSizes_length (k n : Nat) (hk : 0 < k) :
    (groupSizes k n).length = (n + k - 1) / k := by
  have hlt : n % k < k := Nat.mod_lt _ hk
  have hn := Nat.div_add_mod n k
  by_cases hm : n % k = 0
  · have h1 : n + k - 1 = k * (n / k) + (k - 1) := by omega
    have h2 : (k - 1) / k = 0 := Nat.div_eq_of_lt (by omega)
    rw [h1, Nat.mul_add_div hk, h2]
    simp [groupSizes, hm]
  · have h0 : k * (n / k + 1) = k * (n / k) + k := by
      rw [Nat.mul_add, Nat.mul_one]
    have h1 : n + k - 1 = k * (n / k + 1) + (n % k - 1) := by omega
    have h2 : (n % k - 1) / k = 0 := Nat.div_eq_of_lt (by omega)
    rw [h1, Nat.mul_add_div hk, h2]
    simp [groupSizes, hm]

theorem groupSizes_getElem (k n g : Nat) (hg : g < (groupSizes k n).length) :
    (groupSizes k n)[g] =
      if g + 1 < (groupSizes k n).length then k
      else if n % k = 0 then k else n % k := by
  by_cases hm : n % k = 0
  · have hl : (groupSizes k n).length = n / k := by simp [groupSizes, hm]
    have hg2 : g < n / k := by omega
    simp [groupSizes, hm, hg2]
  · have hl : (groupSizes k n).length = n / k + 1 := by simp [groupSizes, hm]
    by_cases hlast : g + 1 < (groupSizes k n).length
    · have hg2 : g < n / k := by omega
      rw [if_pos hlast]
      simp only [groupSizes]
      rw [List.getElem_append_left (by simpa using hg2)]
      simp
    · have hg2 : g = n / k := by omega
      rw [if_neg hlast, if_neg hm]
      simp only [groupSizes, hm, if_false]
      rw [List.getElem_append_right (by simp [hg2])]
      simp [hg2]

theorem groupSizes_pos (k n : Nat) (hk : 0 < k) :
    ∀ m ∈ groupSizes k n, 0 < m := by
  intro m hmem
  simp only [groupSizes, List.mem_append, List.mem_replicate] at hmem
  rcases hmem with ⟨_, rfl⟩ | hmem
  · exact hk
  · by_cases hm : n % k = 0
    · simp [hm] at hmem
    · simp only [hm, if_false, List.mem_singleton] at hmem
      omega

theorem ceil_div_eq (n k : Nat) (hk : 0 < k) :
    ⌈(n : ℚ) / (k : ℚ)⌉₊ = (n + k - 1) / k := by
  have hkq : (0 : ℚ) < (k : ℚ) := by exact_mod_cast hk
  apply le_antisymm
  · rw [Nat.ceil_le, div_le_iff₀ hkq]
    have h1 : n + k - 1 < k * ((n + k - 1) / k + 1) := Nat.lt_mul_div_succ _ hk
    have h2 : n ≤ (n + k - 1) / k * k := by
      rw [Nat.mul_add, Nat.mul_one, Nat.mul_comm] at h1
      omega
    exact_mod_cast h2
  · have h1 : (n : ℚ) / (k : ℚ) ≤ (⌈(n : ℚ) / (k : ℚ)⌉₊ : ℚ) := Nat.le_ceil _
    rw [div_le_iff₀ hkq] at h1
    have h2 : n ≤ ⌈(n : ℚ) / (k : ℚ)⌉₊ * k := by exact_mod_cast h1
    have h3 : n + k - 1 < (⌈(n : ℚ) / (k : ℚ)⌉₊ + 1) * k := by
      rw [Nat.add_mul, Nat.one_mul]
      omega
    exact Nat.lt_succ_iff.mp ((Nat.div_lt_iff_lt_mul hk).mpr h3)

/-- C2: for a positive `SUBGROUP_SIZE = k` and `n` entries, `doGroupMatching`
returns `ceil(n / k)` groups; every group but the last has `k` members and the
last has `n mod k`, or `k` when `k` divides `n`; no group is empty; and no
entry gives no group, an empty ranking and no bars. -/
theorem doGroupMatching_group_sizes (s : Settings) (xs : List Entry)
    (hk : 0 < s.SUBGROUP_SIZE) :
    ∃ r, doGroupMatching s xs = .ok r ∧
      r.groups.length = ⌈(xs.length : ℚ) / (s.SUBGROUP_SIZE : ℚ)⌉₊ ∧
      (∀ (g : Nat) (hg : g < r.groups.length),
        (r.groups[g]).length =
          if g + 1 < r.groups.length then s.SUBGROUP_SIZE
          else if xs.length % s.SUBGROUP_SIZE = 0 then s.SUBGROUP_SIZE
          else xs.length % s.SUBGROUP_SIZE) ∧
      (∀ grp ∈ r.groups, grp ≠ []) ∧
      (xs = [] → r.groups = [] ∧ r.ranking = [] ∧ r.bars = []) := by
  obtain ⟨r, hr, _, _, hsz, hbars, hrank⟩ := doGroupMatching_spec s hk xs
  have hlen : r.groups.length = (groupSizes s.SUBGROUP_SIZE xs.length).length := by
    rw [← hsz, List.length_map]
  refine ⟨r, hr, ?_, ?_, ?_, ?_⟩
  · rw [hlen, groupSizes_length _ _ hk, ceil_div_eq _ _ hk]
  · intro g hg
    have hg1 : g < (r.groups.map List.length).length := by simpa using hg
    have hg2 : g < (groupSizes s.SUBGROUP_SIZE xs.length).length := by
      rw [← hlen]; exact hg
    have h1 : (r.groups[g]).length = (r.groups.map List.length)[g] := by
      simp
    have h2 : (r.groups.map List.length)[g]
        = (groupSizes s.SUBGROUP_SIZE xs.length)[g] := by
      simp only [hsz]
    rw [h1, h2, groupSizes_getElem, hlen]
  · intro grp hmem hnil
    have h1 : grp.length ∈ r.groups.map List.length := List.mem_map_of_mem _ hmem
    rw [hsz] at h1
    have := groupSizes_pos _ _ hk _ h1
    simp [hnil] at this
  · intro hxs
    subst hxs
    have hnil : r.groups = [] := by
      apply List.eq_nil_of_length_eq_zero
      rw [hlen]; simp [groupSizes]
    simp [hnil, hbars, hrank]

theorem doGroupMatching_group_sizes_witness :
    0 < sampleSettings.SUBGROUP_SIZE ∧
    ∃ r, doGroupMatching sampleSettings sampleRanked = .ok r ∧
      r.groups.length = ⌈(sampleRanked.length : ℚ) / (sampleSettings.SUBGROUP_SIZE : ℚ)⌉₊ ∧
      (∀ (g : Nat) (hg : g < r.groups.length),
        (r.groups[g]).length =
          if g + 1 < r.groups.length then sampleSettings.SUBGROUP_SIZE
          else if sampleRanked.length % sampleSettings.SUBGROUP_SIZE = 0
            then sampleSettings.SUBGROUP_SIZE
          else sampleRanked.length % sampleSettings.SUBGROUP_SIZE) ∧
      (∀ grp ∈ r.groups, grp ≠ []) ∧
      (sampleRanked = [] → r.groups = [] ∧ r.ranking = [] ∧ r.bars = []) :=
  ⟨by decide, doGroupMatching_group_sizes sampleSettings sampleRanked (by decide)⟩

/-- C3: for a positive `SUBGROUP_SIZE`, the groups returned by
`doGroupMatching`, concatenated in group order, are the argument array as the
call leaves it; its entries are those of the input, in the same order and with
the same player, contribution and demand (the loop only writes their `group`
field); and the ranking lists the players of the input in that order. -/
theorem doGroupMatching_concat (s : Settings) (xs : List Entry)
    (hk : 0 < s.SUBGROUP_SIZE) :
    ∃ r, doGroupMatching s xs = .ok r ∧
      r.groups.flatten = r.sortedContribs ∧
      r.sortedContribs.map (fun e => (e.player, e.contribution, e.demand))
        = xs.map (fun e => (e.player, e.contribution, e.demand)) ∧
      r.ranking = xs.map Entry.player ∧
      r.ranking = r.groups.flatten.map Entry.player := by
  obtain ⟨r, hr, hsorted, hflat, _, _, hrank⟩ := doGroupMatching_spec s hk xs
  have hfields : ∀ (i : Nat) (ys : List Entry),
      (labelFrom s i ys).map (fun e => (e.player, e.contribution, e.demand))
        = ys.map (fun e => (e.player, e.contribution, e.demand)) := by
    intro i ys
    induction ys generalizing i with
    | nil => rfl
    | cons e rest ih => simp [labelFrom, ih]
  refine ⟨r, hr, hflat, ?_, hrank, ?_⟩
  · rw [hsorted, hfields]
  · rw [hflat, hsorted, labelFrom_map_player, hrank]

theorem doGroupMatching_concat_witness :
    0 < sampleSettings.SUBGROUP_SIZE ∧
    ∃ r, doGroupMatching sampleSettings sampleRanked = .ok r ∧
      r.groups.flatten = r.sortedContribs ∧
      r.sortedContribs.map (fun e => (e.player, e.contribution, e.demand))
        = sampleRanked.map (fun e => (e.player, e.contribution, e.demand)) ∧
      r.ranking = sampleRanked.map Entry.player ∧
      r.ranking = r.groups.flatten.map Entry.player :=
  ⟨by decide, doGroupMatching_concat sampleSettings sampleRanked (by decide)⟩

/-! ### Deduplication -/

theorem objGet_objSet {α : Type} (o : List (String × α)) (key : String) (v : α)
    (k : String) :
    objGet (objSet o key v) k = if key = k then some v else objGet o k := by
  induction o with
  | nil => simp [objSet, objGet]
  | cons p rest ih =>
    obtain ⟨k1, w⟩ := p
    by_cases h1 : k1 = key
    · subst h1
      by_cases h2 : k1 = k <;> simp [objSet, objGet, h2]
    · by_cases h2 : k1 = k
      · subst h2
        simp [objSet, objGet, h1, Ne.symm h1]
      · simp [objSet, objGet, h1, h2, ih]

theorem objGet_eq_none_iff {α : Type} (o : List (String × α)) (k : String) :
    objGet o k = none ↔ k ∉ o.map Prod.fst := by
  induction o with
  | nil => simp [objGet]
  | cons p rest ih =>
    obtain ⟨k1, w⟩ := p
    by_cases h : k1 = k
    · simp [objGet, h]
    · simp [objGet, h, ih, Ne.symm h]

theorem objSet_of_not_mem {α : Type} (o : List (String × α)) (key : String) (v : α)
    (h : key ∉ o.map Prod.fst) : objSet o key v = o ++ [(key, v)] := by
  induction o with
  | nil => rfl
  | cons p rest ih =>
    obtain ⟨k1, w⟩ := p
    simp only [List.map_cons, List.mem_cons, not_or] at h
    simp [objSet, Ne.symm h.1, ih h.2]

theorem objSet_keys_of_mem {α : Type} (o : List (String × α)) (key : String) (v : α)
    (h : key ∈ o.map Prod.fst) : (objSet o key v).map Prod.fst = o.map Prod.fst := by
  induction o with
  | nil => simp at h
  | cons p rest ih =>
    obtain ⟨k1, w⟩ := p
    by_cases h1 : k1 = key
    · simp [objSet, h1]
    · have h2 : key ∈ rest.map Prod.fst := by
        simp only [List.map_cons, List.mem_cons] at h
        rcases h with h | h
        · exact absurd h.symm h1
        · exact h
      simp [objSet, h1, ih h2]

theorem objGet_of_mem {α : Type} (o : List (String × α))
    (hnd : (o.map Prod.fst).Nodup) (k : String) (v : α) (h : (k, v) ∈ o) :
    objGet o k = some v := by
  induction o with
  | nil => simp at h
  | cons p rest ih =>
    obtain ⟨k1, w⟩ := p
    simp only [List.map_cons, List.nodup_cons] at hnd
    simp only [List.mem_cons, Prod.mk.injEq] at h
    rcases h with ⟨h1, h2⟩ | h
    · simp [objGet, h1, h2]
    · have hne : k1 ≠ k := by
        intro heq
        apply hnd.1
        rw [heq]
        exact List.mem_map_of_mem Prod.fst h
      simp [objGet, hne, ih hnd.2 h]

theorem lastSubmission_append (log : List Entry) (c : Entry) (k : String) :
    lastSubmission (log ++ [c]) k
      = if c.player = k then some c else lastSubmission log k := by
  by_cases h : c.player = k <;> simp [lastSubmission, List.find?_cons, h]

theorem lastSubmission_player (log : List Entry) (k : String) (c : Entry)
    (h : lastSubmission log k = some c) : c.player = k := by
  have := List.find?_some h
  simpa using this

theorem lastSubmission_eq_none_iff (log : List Entry) (k : String) :
    lastSubmission log k = none ↔ k ∉ log.map Entry.player := by
  simp only [lastSubmission, List.find?_eq_none, List.mem_reverse, decide_eq_true_eq,
    List.mem_map, not_exists, not_and]

theorem dedup_inv (log : List Entry) :
    DedupInv log (log.foldl sendResults.dedupStep ([], 0)) := by
  induction log using List.reverseRecOn with
  | nil =>
    constructor <;> simp [objGet, lastSubmission]
  | append_singleton log c ih =>
    rw [List.foldl_append]
    simp only [List.foldl_cons, List.foldl_nil]
    generalize log.foldl sendResults.dedupStep ([], 0) = acc at ih
    obtain ⟨o, n⟩ := acc
    obtain ⟨hnd, hget, hsize, hle, hsame⟩ := ih
    simp only at hnd hget hsize hle hsame
    by_cases hmem : c.player ∈ o.map Prod.fst
    · have hsome : (objGet o c.player).isNone = false := by
        cases hg : objGet o c.player with
        | none => exact absurd hmem ((objGet_eq_none_iff o c.player).mp hg)
        | some v => rfl
      constructor
      · simpa [sendResults.dedupStep, objSet_keys_of_mem o c.player c hmem] using hnd
      · intro k
        simp [sendResults.dedupStep, objGet_objSet, lastSubmission_append, hget]
      · have := congrArg List.length (objSet_keys_of_mem o c.player c hmem)
        simp only [List.length_map] at this
        simp [sendResults.dedupStep, hsome, this, hsize]
      · simp [sendResults.dedupStep, hsome]; omega
      · intro h
        simp [sendResults.dedupStep, hsome] at h
        omega
    · have hnone : (objGet o c.player).isNone = true := by
        rw [(objGet_eq_none_iff o c.player).mpr hmem]; rfl
      constructor
      · simp only [sendResults.dedupStep, objSet_of_not_mem o c.player c hmem,
          List.map_append, List.map_cons, List.map_nil]
        rw [List.nodup_append]
        refine ⟨hnd, by simp, ?_⟩
        intro a ha hb
        simp only [List.mem_singleton] at hb
        exact hmem (hb ▸ ha)
      · intro k
        simp [sendResults.dedupStep, objGet_objSet, lastSubmission_append, hget]
      · simp [sendResults.dedupStep, hnone, objSet_of_not_mem o c.player c hmem, hsize]
      · simp [sendResults.dedupStep, hnone]; omega
      · intro h
        simp only [sendResults.dedupStep, hnone, if_true, List.length_append,
          List.length_singleton, Nat.add_right_cancel_iff] at h
        simp [sendResults.dedupStep, objSet_of_not_mem o c.player c hmem, hsame h]

theorem objGet_some_mem {α : Type} (o : List (String × α)) (k : String) (v : α)
    (h : objGet o k = some v) : (k, v) ∈ o := by
  induction o with
  | nil => simp [objGet] at h
  | cons p rest ih =>
    obtain ⟨k1, w⟩ := p
    by_cases h1 : k1 = k
    · simp only [objGet, h1, if_true, Option.some.injEq] at h
      simp [h1, h]
    · simp only [objGet, h1, if_false] at h
      exact List.mem_cons_of_mem _ (ih h)

theorem deduplicate_eq (log : List Entry) :
    sendResults.deduplicate log
      = (log.foldl sendResults.dedupStep ([], 0)).1.map Prod.snd := by
  have h := dedup_inv log
  unfold sendResults.deduplicate
  by_cases hsz : (log.foldl sendResults.dedupStep ([], 0)).2 = log.length
  · simp [hsz, h.same hsz]
  · simp [hsz]

theorem dedup_values_player (log : List Entry) :
    ∀ p ∈ (log.foldl sendResults.dedupStep ([], 0)).1, p.2.player = p.1 := by
  intro p hp
  have h := dedup_inv log
  have h1 := objGet_of_mem _ h.nodup p.1 p.2 hp
  rw [h.get] at h1
  exact lastSubmission_player _ _ _ h1

theorem deduplicate_players (log : List Entry) :
    (sendResults.deduplicate log).map Entry.player
      = (log.foldl sendResults.dedupStep ([], 0)).1.map Prod.fst := by
  rw [deduplicate_eq, List.map_map]
  apply List.map_congr_left
  intro p hp
  exact dedup_values_player log p hp

theorem deduplicate_nodup (log : List Entry) :
    ((sendResults.deduplicate log).map Entry.player).Nodup := by
  rw [deduplicate_players]
  exact (dedup_inv log).nodup

theorem deduplicate_mem_player (log : List Entry) (p : String) :
    p ∈ (sendResults.deduplicate log).map Entry.player ↔ p ∈ log.map Entry.player := by
  rw [deduplicate_players]
  have h := dedup_inv log
  have h1 := objGet_eq_none_iff (log.foldl sendResults.dedupStep ([], 0)).1 p
  have h2 := lastSubmission_eq_none_iff log p
  rw [h.get] at h1
  constructor
  · intro hp
    by_contra hn
    exact (h1.mp (h2.mpr hn)) hp
  · intro hp
    by_contra hn
    exact (h2.mp (h1.mpr hn)) hp

theorem deduplicate_mem_iff (log : List Entry) (c : Entry) :
    c ∈ sendResults.deduplicate log ↔ lastSubmission log c.player = some c := by
  have h := dedup_inv log
  rw [deduplicate_eq]
  constructor
  · intro hc
    obtain ⟨p, hp, rfl⟩ := List.mem_map.mp hc
    have hk := dedup_values_player log p hp
    have h1 := objGet_of_mem _ h.nodup p.1 p.2 hp
    rw [h.get] at h1
    rw [hk]; exact h1
  · intro hc
    rw [← h.get] at hc
    exact List.mem_map.mpr ⟨(c.player, c), objGet_some_mem _ _ _ hc, rfl⟩

theorem deduplicate_of_nodup (log : List Entry)
    (hnd : (log.map Entry.player).Nodup) : sendResults.deduplicate log = log := by
  have hsz : (log.foldl sendResults.dedupStep ([], 0)).2 = log.length := by
    induction log using List.reverseRecOn with
    | nil => rfl
    | append_singleton log c ih =>
      rw [List.map_append, List.nodup_append] at hnd
      obtain ⟨hnd1, _, hdisj⟩ := hnd
      have hnot : c.player ∉ log.map Entry.player := by
        intro hin
        exact hdisj hin (by simp)
      have h := dedup_inv log
      have hnone : objGet (log.foldl sendResults.dedupStep ([], 0)).1 c.player = none := by
        rw [h.get]; exact (lastSubmission_eq_none_iff log c.player).mpr hnot
      rw [List.foldl_append]
      simp [sendResults.dedupStep, hnone, ih hnd1]
  simp [sendResults.deduplicate, hsz]

/-- C6: the deduplication step keeps exactly one submission per distinct
player of the log, namely the one that comes last in the log for that player;
an empty log gives an empty collection. -/
theorem deduplicate_last_write_wins (log : List Entry) :
    ((sendResults.deduplicate log).map Entry.player).Nodup ∧
    (∀ p, p ∈ (sendResults.deduplicate log).map Entry.player ↔ p ∈ log.map Entry.player) ∧
    (∀ c, c ∈ sendResults.deduplicate log ↔ lastSubmission log c.player = some c) ∧
    sendResults.deduplicate [] = [] :=
  ⟨deduplicate_nodup log, deduplicate_mem_player log, deduplicate_mem_iff log, rfl⟩

/-- C7: the deduplication step is idempotent, and it leaves a log without a
repeated player as it is (same submissions, same order). -/
theorem deduplicate_idempotent (log : List Entry) :
    sendResults.deduplicate (sendResults.deduplicate log) = sendResults.deduplicate log ∧
    ((log.map Entry.player).Nodup → sendResults.deduplicate log = log) :=
  ⟨deduplicate_of_nodup _ (deduplicate_nodup log), deduplicate_of_nodup log⟩

theorem deduplicate_idempotent_witness :
    (sampleRanked.map Entry.player).Nodup ∧
    sendResults.deduplicate sampleRanked = sampleRanked :=
  ⟨by decide, (deduplicate_idempotent sampleRanked).2 (by decide)⟩

/-! ### Ranking -/

theorem hostSort.insert_perm (cmp : Entry → Entry → Rng → Int × Rng) (element : Entry)
    (rev : List Entry) (r : Rng) :
    (hostSort.insert cmp element rev r).1.Perm (element :: rev) := by
  induction rev generalizing r with
  | nil => simp [hostSort.insert]
  | cons tmp rest ih =>
    by_cases h : (cmp tmp element r).1 > 0
    · simp only [hostSort.insert, h, if_true]
      exact ((ih _).cons tmp).trans (List.Perm.swap element tmp rest)
    · simp [hostSort.insert, h]

theorem hostSort.foldl_perm (cmp : Entry → Entry → Rng → Int × Rng) (xs : List Entry)
    (acc : List Entry × Rng) :
    (xs.foldl (fun (acc : List Entry × Rng) element =>
        hostSort.insert cmp element acc.1 acc.2) acc).1.Perm (xs ++ acc.1) := by
  induction xs generalizing acc with
  | nil => simp
  | cons x rest ih =>
    simp only [List.foldl_cons]
    refine (ih _).trans ?_
    refine (List.Perm.append_left rest (hostSort.insert_perm cmp x acc.1 acc.2)).trans ?_
    simp

theorem hostSort_perm (cmp : Entry → Entry → Rng → Int × Rng) (xs : List Entry) (r : Rng) :
    (hostSort cmp xs r).1.Perm xs := by
  simp only [hostSort]
  refine (List.reverse_perm _).trans ?_
  simpa using hostSort.foldl_perm cmp xs ([], r)

theorem sortContributions_pos (c1 c2 : Entry) (r : Rng)
    (h : (sortContributions c1 c2 r).1 > 0) : c1.contribution ≤ c2.contribution := by
  unfold sortContributions at h
  split_ifs at h with h1 h2 h3
  · simp at h
  · exact le_of_lt h2
  · simp at h
  · exact le_of_not_lt h1

theorem sortContributions_not_pos (c1 c2 : Entry) (r : Rng)
    (h : ¬ (sortContributions c1 c2 r).1 > 0) : c2.contribution ≤ c1.contribution := by
  unfold sortContributions at h
  split_ifs at h with h1 h2 h3
  · exact le_of_lt h1
  · simp at h
  · exact le_of_not_lt h2
  · simp at h

theorem hostSort.insert_sorted (element : Entry) (rev : List Entry) (r : Rng)
    (h : rev.Pairwise (fun a b => a.contribution ≤ b.contribution)) :
    (hostSort.insert sortContributions element rev r).1.Pairwise
      (fun a b => a.contribution ≤ b.contribution) := by
  induction rev generalizing r with
  | nil => simp [hostSort.insert]
  | cons tmp rest ih =>
    rw [List.pairwise_cons] at h
    by_cases hc : (sortContributions tmp element r).1 > 0
    · simp only [hostSort.insert, hc, if_true]
      rw [List.pairwise_cons]
      refine ⟨?_, ih _ h.2⟩
      intro z hz
      have hz2 := (hostSort.insert_perm sortContributions element rest _).mem_iff.mp hz
      rcases List.mem_cons.mp hz2 with rfl | hz3
      · exact sortContributions_pos _ _ _ hc
      · exact h.1 z hz3
    · simp only [hostSort.insert, hc, if_false]
      have hle := sortContributions_not_pos _ _ _ hc
      rw [List.pairwise_cons, List.pairwise_cons]
      refine ⟨?_, h.1, h.2⟩
      intro z hz
      rcases List.mem_cons.mp hz with rfl | hz3
      · exact hle
      · exact le_trans hle (h.1 z hz3)

theorem hostSort.foldl_sorted (xs : List Entry) (acc : List Entry × Rng)
    (h : acc.1.Pairwise (fun a b => a.contribution ≤ b.contribution)) :
    (xs.foldl (fun (acc : List Entry × Rng) element =>
        hostSort.insert sortContributions element acc.1 acc.2) acc).1.Pairwise
      (fun a b => a.contribution ≤ b.contribution) := by
  induction xs generalizing acc with
  | nil => simpa using h
  | cons x rest ih =>
    simp only [List.foldl_cons]
    exact ih _ (hostSort.insert_sorted x acc.1 acc.2 h)

theorem hostSort_sorted (xs : List Entry) (r : Rng) :
    (hostSort sortContributions xs r).1.Pairwise
      (fun a b => a.contribution ≥ b.contribution) := by
  simp only [hostSort]
  rw [List.pairwise_reverse]
  exact hostSort.foldl_sorted xs ([], r) List.Pairwise.nil

/-- C4: whatever the draws, the sequence sorted with `sortContributions` is in
descending order of contribution: each entry has at least the contribution of
the entry right after it, and of every later entry. -/
theorem sortContributions_sorts_descending (xs : List Entry) (r : Rng) :
    (hostSort sortContributions xs r).1.Chain'
      (fun a b => a.contribution ≥ b.contribution) ∧
    (hostSort sortContributions xs r).1.Pairwise
      (fun a b => a.contribution ≥ b.contribution) :=
  ⟨(hostSort_sorted xs r).chain', hostSort_sorted xs r⟩

/-- C5: for a positive `SUBGROUP_SIZE` and whatever the draws, the ranking
computed from a raw log holds each distinct player of the log once and no one
else. -/
theorem sendResults_ranking_perm (s : Settings) (log : List Entry) (r : Rng)
    (hk : 0 < s.SUBGROUP_SIZE) :
    ∃ m, sendResults.matching s log r = .ok m ∧
      m.ranking.Nodup ∧
      (∀ p, p ∈ m.ranking ↔ p ∈ log.map Entry.player) ∧
      m.ranking.Perm (log.map Entry.player).dedup := by
  obtain ⟨m, hm, _, _, _, _, hrank⟩ := doGroupMatching_spec s hk
    (hostSort sortContributions (sendResults.deduplicate log) r).1
  have hperm : m.ranking.Perm ((sendResults.deduplicate log).map Entry.player) := by
    rw [hrank]
    exact (hostSort_perm _ _ _).map _
  have hnd : m.ranking.Nodup := hperm.nodup_iff.mpr (deduplicate_nodup log)
  have hmem : ∀ p, p ∈ m.ranking ↔ p ∈ log.map Entry.player := by
    intro p
    rw [hperm.mem_iff]
    exact deduplicate_mem_player log p
  refine ⟨m, hm, hnd, hmem, ?_⟩
  rw [List.perm_ext_iff_of_nodup hnd (List.nodup_dedup _)]
  intro p
  rw [hmem p, List.mem_dedup]


theorem sendResults_ranking_perm_witness :
    0 < sampleSettings.SUBGROUP_SIZE ∧
    ∃ m, sendResults.matching sampleSettings sampleLog sampleRng = .ok m ∧
      m.ranking.Nodup ∧
      (∀ p, p ∈ m.ranking ↔ p ∈ sampleLog.map Entry.player) ∧
      m.ranking.Perm (sampleLog.map Entry.player).dedup :=
  ⟨by decide, sendResults_ranking_perm sampleSettings sampleLog sampleRng (by decide)⟩

/-! ### Group statistics -/

theorem computeGroupStats.foldl_cSum (s : Settings) (group : List Entry) (acc : Sums) :
    (group.foldl (computeGroupStats.inner s) acc).cSum
      = acc.cSum + (group.map Entry.contribution).sum := by
  induction group generalizing acc with
  | nil => simp
  | cons e rest ih => simp [List.foldl_cons, ih, computeGroupStats.inner, add_assoc]

theorem computeGroupStats.sums_cSum (s : Settings) (group : List Entry) :
    (computeGroupStats.sums s group).cSum = (group.map Entry.contribution).sum := by
  simp [computeGroupStats.sums, computeGroupStats.foldl_cSum]

/-- The accumulator `cSumSquared` holds the square of the last contribution
read: the loop assigns it and does not add to it. -/
theorem computeGroupStats.sums_cSumSquared (s : Settings) (group : List Entry) (e : Entry) :
    (computeGroupStats.sums s (group ++ [e])).cSumSquared = e.contribution ^ 2 := by
  simp [computeGroupStats.sums, List.foldl_append, computeGroupStats.inner]

theorem computeGroupStats.radicand_fin (a b lenJ df : ℚ) (h1 : lenJ ≠ 0) (h2 : df ≠ 0) :
    computeGroupStats.radicand (.fin a) (.fin b) lenJ df
      = .fin ((a - b ^ 2 / lenJ) / df) := by
  simp [computeGroupStats.radicand, JsNum.div, JsNum.sub, JsNum.add, JsNum.neg, JsNum.sq,
    h1, h2, sub_eq_add_neg]

theorem computeGroupStats.stdContr_small (s : Settings) (group : List Entry)
    (h : group.length ≤ 2) : (computeGroupStats.ofGroup s group).stdContr = .NA := by
  have h1 : ((group.length : ℚ) - 1 ≤ 1) := by
    have : (group.length : ℚ) ≤ 2 := by exact_mod_cast h
    linarith
  simp [computeGroupStats.ofGroup, h1]

theorem computeGroupStats.stdContr_large (s : Settings) (group : List Entry)
    (h : 3 ≤ group.length) :
    (computeGroupStats.ofGroup s group).stdContr
      = .sqrt (.fin (((computeGroupStats.sums s group).cSumSquared
          - (computeGroupStats.sums s group).cSum ^ 2 / (group.length : ℚ))
          / ((group.length : ℚ) - 1))) := by
  have h3 : (3 : ℚ) ≤ (group.length : ℚ) := by exact_mod_cast h
  have h1 : ¬ ((group.length : ℚ) - 1 ≤ 1) := by linarith
  have h2 : (group.length : ℚ) ≠ 0 := by linarith
  have h4 : (group.length : ℚ) - 1 ≠ 0 := by
    intro h0; linarith
  simp only [computeGroupStats.ofGroup, h1, if_false]
  rw [computeGroupStats.radicand_fin _ _ _ _ h2 h4]

theorem computeGroupStats.ofGroup_stored (s : Settings) (group : List Entry) :
    computeGroupStats s [group]
      = [(propertyKey s.GROUP_NAMES[0]?, computeGroupStats.ofGroup s group)] := by
  simp [computeGroupStats, computeGroupStats.loop, objSet]

theorem computeGroupStats.stdContr_last (s : Settings) (group : List Entry) (e : Entry)
    (h : 3 ≤ (group ++ [e]).length) :
    (computeGroupStats.ofGroup s (group ++ [e])).stdContr
      = .sqrt (.fin ((e.contribution ^ 2
          - ((group ++ [e]).map Entry.contribution).sum ^ 2 / ((group ++ [e]).length : ℚ))
          / (((group ++ [e]).length : ℚ) - 1))) := by
  rw [computeGroupStats.stdContr_large s _ h, computeGroupStats.sums_cSumSquared,
    computeGroupStats.sums_cSum]

/-- C8: on the group with contributions 1, 2, 3 the value under the square
root of `stdContr` is `-3/2`, while the sample variance of 1, 2, 3 is `1`:
`cSumSquared` holds only the square of the last contribution. -/
theorem computeGroupStats_stdContr_not_variance :
    3 ≤ sampleGroup.length ∧
    (computeGroupStats.ofGroup sampleSettings sampleGroup).stdContr
      = .sqrt (.fin (-3 / 2)) ∧
    sampleVariance (sampleGroup.map Entry.contribution) = 1 ∧
    (computeGroupStats.ofGroup sampleSettings sampleGroup).stdContr
      ≠ .sqrt (.fin (sampleVariance (sampleGroup.map Entry.contribution))) := by
  have hv : sampleVariance (sampleGroup.map Entry.contribution) = 1 := by
    norm_num [sampleVariance, sampleGroup]
  have hs : (computeGroupStats.ofGroup sampleSettings sampleGroup).stdContr
      = .sqrt (.fin (-3 / 2)) := by
    rw [computeGroupStats.stdContr_large _ _ (by decide)]
    norm_num [computeGroupStats.sums, computeGroupStats.inner, sampleGroup]
  refine ⟨by decide, hs, hv, ?_⟩
  rw [hs, hv]
  intro h
  injection h with h
  injection h with h
  norm_num at h

theorem computeGroupStats.ofGroup_stdContr_NA_iff (s : Settings) (group : List Entry) :
    ((computeGroupStats.ofGroup s group).stdContr = .NA ↔ group.length ≤ 2) ∧
    ((computeGroupStats.ofGroup s group).stdContr.isNumber = true ↔ 3 ≤ group.length) := by
  rcases Nat.lt_or_ge group.length 3 with h | h
  · have hs := computeGroupStats.stdContr_small s group (by omega)
    rw [hs]
    simp [StatValue.isNumber]
    omega
  · have hs := computeGroupStats.stdContr_large s group h
    rw [hs]
    simp [StatValue.isNumber]
    omega

theorem doGroupMatching_groups_ne_nil (s : Settings) (hk : 0 < s.SUBGROUP_SIZE)
    (xs : List Entry) :
    ∃ r, doGroupMatching s xs = .ok r ∧ ∀ g ∈ r.groups, g ≠ [] := by
  obtain ⟨r, hr, _, _, hsz, _, _⟩ := doGroupMatching_spec s hk xs
  refine ⟨r, hr, ?_⟩
  intro g hmem hnil
  have h1 : g.length ∈ r.groups.map List.length := List.mem_map_of_mem _ hmem
  rw [hsz] at h1
  have := groupSizes_pos _ _ hk _ h1
  simp [hnil] at this

theorem computeGroupStats.avgContr_eq (s : Settings) (group : List Entry)
    (h : group ≠ []) :
    (computeGroupStats.ofGroup s group).avgContr
      = .num (.fin ((group.map Entry.contribution).sum / (group.length : ℚ))) := by
  have hlen : (group.length : ℚ) ≠ 0 := by
    have : group.length ≠ 0 := fun h0 => h (List.eq_nil_of_length_eq_zero h0)
    exact_mod_cast this
  simp [computeGroupStats.ofGroup, computeGroupStats.sums_cSum, JsNum.div, hlen]

theorem computeGroupStats.foldl_dSum (s : Settings) (hE : s.ENDO = true)
    (group : List Entry) (acc : Sums) :
    (group.foldl (computeGroupStats.inner s) acc).dSum
      = (group.map (fun e => demandNum e.demand)).foldl JsNum.add acc.dSum := by
  induction group generalizing acc with
  | nil => rfl
  | cons e rest ih => simp [List.foldl_cons, ih, computeGroupStats.inner, hE]

theorem foldl_add_fin (ds : List ℚ) (a : ℚ) :
    (ds.map JsNum.fin).foldl JsNum.add (.fin a) = .fin (a + ds.sum) := by
  induction ds generalizing a with
  | nil => simp
  | cons d rest ih => simp [List.foldl_cons, JsNum.add, ih, add_assoc]

theorem computeGroupStats.ofGroup_demand (s : Settings) (group : List Entry) :
    (s.ENDO = false →
      (computeGroupStats.ofGroup s group).avgDemand = .NA ∧
      (computeGroupStats.ofGroup s group).stdDemand = .NA) ∧
    (s.ENDO = true →
      (computeGroupStats.ofGroup s group).avgDemand
        = .num (JsNum.div
            ((group.map (fun e => demandNum e.demand)).foldl JsNum.add (.fin 0))
            (.fin (group.length : ℚ))) ∧
      (∀ ds : List ℚ, group ≠ [] → group.map Entry.demand = ds.map some →
        (computeGroupStats.ofGroup s group).avgDemand
          = .num (.fin (ds.sum / (group.length : ℚ)))) ∧
      ((computeGroupStats.ofGroup s group).stdDemand = .NA ↔ group.length ≤ 2)) := by
  constructor
  · intro hE
    simp [computeGroupStats.ofGroup, hE]
  · intro hE
    have havg : (computeGroupStats.ofGroup s group).avgDemand
        = .num (JsNum.div
            ((group.map (fun e => demandNum e.demand)).foldl JsNum.add (.fin 0))
            (.fin (group.length : ℚ))) := by
      simp [computeGroupStats.ofGroup, hE, computeGroupStats.sums,
        computeGroupStats.foldl_dSum s hE]
    refine ⟨havg, ?_, ?_⟩
    · intro ds hne hds
      have hlen : (group.length : ℚ) ≠ 0 := by
        have : group.length ≠ 0 := fun h0 => hne (List.eq_nil_of_length_eq_zero h0)
        exact_mod_cast this
      have hmap : group.map (fun e => demandNum e.demand) = ds.map JsNum.fin := by
        have h1 : group.map (fun e => demandNum e.demand)
            = (group.map Entry.demand).map demandNum := by
          simp [List.map_map, Function.comp_def]
        rw [h1, hds, List.map_map]
        apply List.map_congr_left
        intro d _
        rfl
      rw [havg, hmap, foldl_add_fin]
      simp [JsNum.div, hlen]
    · rcases Nat.lt_or_ge group.length 3 with h | h
      · have h1 : ((group.length : ℚ) - 1 ≤ 1) := by
          have : (group.length : ℚ) ≤ 2 := by exact_mod_cast (by omega : group.length ≤ 2)
          linarith
        simp [computeGroupStats.ofGroup, hE, h1]
        omega
      · have h3 : (3 : ℚ) ≤ (group.length : ℚ) := by exact_mod_cast h
        have h1 : ¬ ((group.length : ℚ) - 1 ≤ 1) := by linarith
        simp [computeGroupStats.ofGroup, hE, h1]
        omega

/-! ### Payoff over a group and the comparator -/

theorem getPayoff_of_mem (s : Settings) (bars : List (List Bar)) (g i : Nat)
    (group : List Bar) (bar : Bar) (hg : bars[g]? = some group)
    (hi : group[i]? = some bar) :
    getPayoff s bars (g, i)
      = .ok (JsNum.add (JsNum.sub (.fin s.INITIAL_COINS) (.fin bar.1))
          (JsNum.div (.fin (group.map Prod.fst).sum) (.fin s.GROUP_ACCOUNT_DIVIDER))) := by
  simp [getPayoff, hg, hi, foldl_computeGroupAccount]

theorem sum_map_payoff (s : Settings) (group : List Bar) (t : ℚ) :
    (group.map (fun b => s.INITIAL_COINS - b.1 + t)).sum
      = (group.length : ℚ) * s.INITIAL_COINS - (group.map Prod.fst).sum
        + (group.length : ℚ) * t := by
  induction group with
  | nil => simp
  | cons b rest ih =>
    simp only [List.map_cons, List.sum_cons, List.length_cons, ih]
    push_cast
    ring

/-- C16: in a group of `k` members with total contribution `T` and a non-zero
divider, the payoff that `getPayoff` returns at each position of the group is
`INITIAL_COINS - c_i + T / GROUP_ACCOUNT_DIVIDER`, and these payoffs add up to
`k * INITIAL_COINS - T + k * T / GROUP_ACCOUNT_DIVIDER`. -/
theorem getPayoff_group_sum (s : Settings) (bars : List (List Bar)) (g : Nat)
    (group : List Bar) (hg : bars[g]? = some group)
    (hd : s.GROUP_ACCOUNT_DIVIDER ≠ 0) :
    (List.range group.length).map (fun i => getPayoff s bars (g, i))
      = group.map (fun b => .ok (.fin (s.INITIAL_COINS - b.1
          + (group.map Prod.fst).sum / s.GROUP_ACCOUNT_DIVIDER))) ∧
    (group.map (fun b => s.INITIAL_COINS - b.1
          + (group.map Prod.fst).sum / s.GROUP_ACCOUNT_DIVIDER)).sum
      = (group.length : ℚ) * s.INITIAL_COINS - (group.map Prod.fst).sum
        + (group.length : ℚ) * (group.map Prod.fst).sum / s.GROUP_ACCOUNT_DIVIDER := by
  constructor
  · apply List.ext_getElem
    · simp
    · intro i h1 h2
      have hi : i < group.length := by simpa using h1
      simp only [List.getElem_map, List.getElem_range]
      rw [getPayoff_of_mem s bars g i group group[i] hg (List.getElem?_eq_getElem hi)]
      simp [JsNum.add, JsNum.sub, JsNum.neg, JsNum.div, hd, sub_eq_add_neg]
  · rw [sum_map_payoff, mul_div_assoc]

theorem getPayoff_group_sum_witness :
    ([[(10, none), (6, none)], [(4, none), (2, none)]] : List (List Bar))[0]?
      = some [(10, none), (6, none)] ∧
    sampleSettings.GROUP_ACCOUNT_DIVIDER ≠ 0 ∧
    (([(10, none), (6, none)] : List Bar).map (fun b => sampleSettings.INITIAL_COINS - b.1
        + (([(10, none), (6, none)] : List Bar).map Prod.fst).sum
          / sampleSettings.GROUP_ACCOUNT_DIVIDER)).sum
      = ((([(10, none), (6, none)] : List Bar).length : ℕ) : ℚ) * sampleSettings.INITIAL_COINS
        - (([(10, none), (6, none)] : List Bar).map Prod.fst).sum
        + ((([(10, none), (6, none)] : List Bar).length : ℕ) : ℚ)
          * (([(10, none), (6, none)] : List Bar).map Prod.fst).sum
          / sampleSettings.GROUP_ACCOUNT_DIVIDER :=
  ⟨rfl, by decide,
    (getPayoff_group_sum sampleSettings [[(10, none), (6, none)], [(4, none), (2, none)]] 0
      [(10, none), (6, none)] rfl (by decide)).2⟩

/-- C18: `sortContributions(c1, c2)` returns `-1` when `c1` contributed more
and `1` when it contributed less, without taking a draw; on equal
contributions it takes one draw and returns `-1` when the draw is at most
`0.5` and `1` otherwise; it never returns `0`. -/
theorem sortContributions_cases (c1 c2 : Entry) (r : Rng) :
    (c1.contribution > c2.contribution → sortContributions c1 c2 r = (-1, r)) ∧
    (c1.contribution < c2.contribution → sortContributions c1 c2 r = (1, r)) ∧
    (c1.contribution = c2.contribution →
      (r.draws r.used ≤ 1 / 2 → (sortContributions c1 c2 r).1 = -1) ∧
      (¬ r.draws r.used ≤ 1 / 2 → (sortContributions c1 c2 r).1 = 1) ∧
      (sortContributions c1 c2 r).2.used = r.used + 1) ∧
    (sortContributions c1 c2 r).1 ≠ 0 := by
  refine ⟨?_, ?_, ?_, ?_⟩
  · intro h
    simp [sortContributions, h]
  · intro h
    have h2 : ¬ c1.contribution > c2.contribution := not_lt.mpr (le_of_lt h)
    simp [sortContributions, h, h2]
  · intro h
    have h1 : ¬ c1.contribution > c2.contribution := by rw [h]; exact lt_irrefl _
    have h2 : ¬ c1.contribution < c2.contribution := by rw [h]; exact lt_irrefl _
    have hdef : sortContributions c1 c2 r
        = if r.draws r.used ≤ 1 / 2 then (-1, { r with used := r.used + 1 })
          else (1, { r with used := r.used + 1 }) := by
      unfold sortContributions
      rw [if_neg h1, if_neg h2]
      rfl
    refine ⟨?_, ?_, ?_⟩
    · intro hd
      rw [hdef, if_pos hd]
    · intro hd
      rw [hdef, if_neg hd]
    · rw [hdef]
      split_ifs <;> rfl
  · unfold sortContributions
    split_ifs <;> simp

theorem sortContributions_cases_witness :
    ((⟨"A", 6, none, none⟩ : Entry).contribution > (⟨"B", 4, none, none⟩ : Entry).contribution) ∧
    sortContributions ⟨"A", 6, none, none⟩ ⟨"B", 4, none, none⟩ sampleRng = (-1, sampleRng) :=
  ⟨by decide,
    (sortContributions_cases ⟨"A", 6, none, none⟩ ⟨"B", 4, none, none⟩ sampleRng).1
      (by decide)⟩

/-! ### Labels of the groups -/

theorem labelFrom_getElem? (s : Settings) (xs : List Entry) (i0 i : Nat) :
    (labelFrom s i0 xs)[i]?
      = (xs[i]?).map (fun e => { e with group := s.GROUP_NAMES[(i0 + i) / s.SUBGROUP_SIZE]? }) := by
  induction xs generalizing i0 i with
  | nil => simp [labelFrom]
  | cons e rest ih =>
    cases i with
    | zero => simp [labelFrom]
    | succ i =>
      simp only [labelFrom, List.getElem?_cons_succ, ih]
      have : i0 + 1 + i = i0 + (i + 1) := by omega
      rw [this]

theorem le_ceil_mul (n k : Nat) (hk : 0 < k) : n ≤ (n + k - 1) / k * k := by
  have h1 : n + k - 1 < k * ((n + k - 1) / k + 1) := Nat.lt_mul_div_succ _ hk
  rw [Nat.mul_add, Nat.mul_one, Nat.mul_comm] at h1
  omega

theorem flatten_getElem?_of_sizes {α : Type} (k : Nat) (L : List (List α))
    (hsz : ∀ g grp, L[g]? = some grp → g + 1 < L.length → grp.length = k)
    (g j : Nat) (grp : List α) (e : α) (hg : L[g]? = some grp) (hj : grp[j]? = some e) :
    L.flatten[g * k + j]? = some e := by
  induction L generalizing g with
  | nil => simp at hg
  | cons grp0 rest ih =>
    cases g with
    | zero =>
      simp only [List.getElem?_cons_zero, Option.some.injEq] at hg
      subst hg
      obtain ⟨hlt, _⟩ := List.getElem?_eq_some.mp hj
      simp only [List.flatten_cons, Nat.zero_mul, Nat.zero_add]
      rw [List.getElem?_append_left hlt]
      exact hj
    | succ g =>
      simp only [List.getElem?_cons_succ] at hg
      obtain ⟨hlt, _⟩ := List.getElem?_eq_some.mp hg
      have h0 : grp0.length = k :=
        hsz 0 grp0 (by simp) (by simp only [List.length_cons]; omega)
      have hrest : ∀ g' grp', rest[g']? = some grp' → g' + 1 < rest.length →
          grp'.length = k := by
        intro g' grp' h1 h2
        exact hsz (g' + 1) grp' (by simpa using h1) (by simp only [List.length_cons]; omega)
      have hidx : (g + 1) * k + j = grp0.length + (g * k + j) := by
        rw [h0, Nat.add_mul, Nat.one_mul]; omega
      simp only [List.flatten_cons]
      rw [hidx, List.getElem?_append_right (by omega)]
      simp only [Nat.add_sub_cancel_left]
      exact ih hrest g hg

theorem groupSizes_le (k n : Nat) (hk : 0 < k) : ∀ m ∈ groupSizes k n, m ≤ k := by
  intro m hmem
  simp only [groupSizes, List.mem_append, List.mem_replicate] at hmem
  rcases hmem with ⟨_, rfl⟩ | hmem
  · exact le_refl _
  · by_cases hm : n % k = 0
    · simp [hm] at hmem
    · simp only [hm, if_false, List.mem_singleton] at hmem
      rw [hmem]
      exact le_of_lt (Nat.mod_lt _ hk)

theorem groups_length_of_sizes (k n : Nat) (L : List (List Entry))
    (hsz : L.map List.length = groupSizes k n) (g : Nat) (grp : List Entry)
    (hg : L[g]? = some grp) :
    (groupSizes k n)[g]? = some grp.length := by
  rw [← hsz, List.getElem?_map, hg]
  rfl

theorem groups_full_of_sizes (k n : Nat) (L : List (List Entry))
    (hsz : L.map List.length = groupSizes k n) (g : Nat) (grp : List Entry)
    (hg : L[g]? = some grp) (hlast : g + 1 < L.length) : grp.length = k := by
  have h1 := groups_length_of_sizes k n L hsz g grp hg
  obtain ⟨hlt, h2⟩ := List.getElem?_eq_some.mp h1
  have hlen : L.length = (groupSizes k n).length := by rw [← hsz, List.length_map]
  rw [groupSizes_getElem, if_pos (by rw [← hlen]; exact hlast)] at h2
  exact h2.symm

theorem groups_le_of_sizes (k n : Nat) (hk : 0 < k) (L : List (List Entry))
    (hsz : L.map List.length = groupSizes k n) (g : Nat) (grp : List Entry)
    (hg : L[g]? = some grp) : grp.length ≤ k := by
  have h1 := groups_length_of_sizes k n L hsz g grp hg
  exact groupSizes_le k n hk _ (List.getElem?_mem h1)

/-! ### Keys of the group statistics -/

theorem computeGroupStats.loop_append (s : Settings) (xs ys : List (List Entry))
    (i : Nat) (out : List (String × GroupStats)) :
    computeGroupStats.loop s i (xs ++ ys) out
      = computeGroupStats.loop s (i + xs.length) ys (computeGroupStats.loop s i xs out) := by
  induction xs generalizing i out with
  | nil => simp [computeGroupStats.loop]
  | cons x rest ih =>
    have h1 : i + 1 + rest.length = i + (rest.length + 1) := by omega
    rw [List.cons_append]
    simp only [computeGroupStats.loop, List.length_cons]
    rw [ih, h1]

theorem computeGroupStats.loop_get_of_ne (s : Settings) (rest : List (List Entry))
    (i : Nat) (out : List (String × GroupStats)) (key : String)
    (h : ∀ j, j < rest.length → propertyKey s.GROUP_NAMES[i + j]? ≠ key) :
    objGet (computeGroupStats.loop s i rest out) key = objGet out key := by
  induction rest generalizing i out with
  | nil => rfl
  | cons x rest ih =>
    simp only [computeGroupStats.loop]
    rw [ih]
    · rw [objGet_objSet, if_neg]
      simpa using h 0 (by simp)
    · intro j hj
      have := h (j + 1) (by simpa using hj)
      have h2 : i + 1 + j = i + (j + 1) := by omega
      rw [h2]; exact this

theorem computeGroupStats.get_of_last (s : Settings) (groups : List (List Entry))
    (g : Nat) (grp : List Entry) (hg : groups[g]? = some grp)
    (h : ∀ j, g < j → j < groups.length →
      propertyKey s.GROUP_NAMES[j]? ≠ propertyKey s.GROUP_NAMES[g]?) :
    objGet (computeGroupStats s groups) (propertyKey s.GROUP_NAMES[g]?)
      = some (computeGroupStats.ofGroup s grp) := by
  obtain ⟨hlt, hget⟩ := List.getElem?_eq_some.mp hg
  have hsplit : groups = groups.take g ++ grp :: groups.drop (g + 1) := by
    rw [← hget, ← List.drop_eq_getElem_cons hlt, List.take_append_drop]
  have hlen : (groups.take g).length = g := by
    rw [List.length_take]; omega
  unfold computeGroupStats
  rw [hsplit, computeGroupStats.loop_append, hlen]
  simp only [computeGroupStats.loop, Nat.zero_add]
  rw [computeGroupStats.loop_get_of_ne, objGet_objSet, if_pos rfl]
  intro j hj
  have hj2 : j < groups.length - (g + 1) := by simpa using hj
  apply h
  · omega
  · omega

theorem getElem_not_mem_take (names : List String) (hnd : names.Nodup) (i : Nat)
    (label : String) (hi : names[i]? = some label) : label ∉ names.take i := by
  obtain ⟨hlt, hget⟩ := List.getElem?_eq_some.mp hi
  have hsplit : names = names.take i ++ label :: names.drop (i + 1) := by
    rw [← hget, ← List.drop_eq_getElem_cons hlt, List.take_append_drop]
  rw [hsplit, List.nodup_append] at hnd
  intro hmem
  exact hnd.2.2 hmem (List.mem_cons_self _ _)

theorem computeGroupStats.loop_keys (s : Settings) (hnd : s.GROUP_NAMES.Nodup)
    (rest : List (List Entry)) (i : Nat) (out : List (String × GroupStats))
    (hout : out.map Prod.fst = s.GROUP_NAMES.take i)
    (hlen : i + rest.length ≤ s.GROUP_NAMES.length) :
    (computeGroupStats.loop s i rest out).map Prod.fst
      = s.GROUP_NAMES.take (i + rest.length) := by
  induction rest generalizing i out with
  | nil => simpa [computeGroupStats.loop] using hout
  | cons x rest ih =>
    simp only [List.length_cons] at hlen
    have hi : i < s.GROUP_NAMES.length := by omega
    have hget : s.GROUP_NAMES[i]? = some s.GROUP_NAMES[i] := List.getElem?_eq_getElem hi
    have hnot : s.GROUP_NAMES[i] ∉ out.map Prod.fst := by
      rw [hout]; exact getElem_not_mem_take _ hnd i _ hget
    simp only [computeGroupStats.loop, List.length_cons]
    have h2 : i + (rest.length + 1) = i + 1 + rest.length := by omega
    rw [h2]
    apply ih
    · rw [hget]
      simp only [propertyKey]
      rw [objSet_of_not_mem _ _ _ hnot, List.map_append, hout, List.take_succ, hget]
      rfl
    · omega

/-! ### What `computeGroupStats` returns for a group -/

theorem mem_objSet {α : Type} (o : List (String × α)) (key : String) (v : α)
    (p : String × α) (h : p ∈ objSet o key v) : p ∈ o ∨ p = (key, v) := by
  induction o with
  | nil =>
    simp only [objSet, List.mem_singleton] at h
    exact Or.inr h
  | cons q rest ih =>
    obtain ⟨k1, w⟩ := q
    by_cases h1 : k1 = key
    · simp only [objSet, h1, if_true, List.mem_cons] at h
      rcases h with h | h
      · exact Or.inr h
      · exact Or.inl (List.mem_cons_of_mem _ h)
    · simp only [objSet, h1, if_false, List.mem_cons] at h
      rcases h with h | h
      · exact Or.inl (by rw [h]; exact List.mem_cons_self _ _)
      · rcases ih h with h2 | h2
        · exact Or.inl (List.mem_cons_of_mem _ h2)
        · exact Or.inr h2

theorem computeGroupStats.loop_mem (s : Settings) (rest : List (List Entry)) (i : Nat)
    (out : List (String × GroupStats)) (p : String × GroupStats)
    (h : p ∈ computeGroupStats.loop s i rest out) :
    p ∈ out ∨ ∃ grp ∈ rest, p.2 = computeGroupStats.ofGroup s grp := by
  induction rest generalizing i out with
  | nil => exact Or.inl h
  | cons x rest ih =>
    simp only [computeGroupStats.loop] at h
    rcases ih _ _ h with h1 | ⟨grp, hgrp, h2⟩
    · rcases mem_objSet _ _ _ _ h1 with h3 | h3
      · exact Or.inl h3
      · exact Or.inr ⟨x, List.mem_cons_self _ _, by rw [h3]⟩
    · exact Or.inr ⟨grp, List.mem_cons_of_mem _ hgrp, h2⟩

theorem computeGroupStats.mem (s : Settings) (groups : List (List Entry))
    (p : String × GroupStats) (h : p ∈ computeGroupStats s groups) :
    ∃ grp ∈ groups, p.2 = computeGroupStats.ofGroup s grp := by
  rcases computeGroupStats.loop_mem s groups 0 [] p h with h1 | h1
  · simp at h1
  · exact h1

theorem sampleStatsGroups_last (s : Settings) (groups : List (List Entry))
    (h2 : groups.length = 2)
    (hne : propertyKey s.GROUP_NAMES[1]? ≠ propertyKey s.GROUP_NAMES[0]?) :
    ∀ j, 0 < j → j < groups.length →
      propertyKey s.GROUP_NAMES[j]? ≠ propertyKey s.GROUP_NAMES[0]? := by
  intro j h0 hj
  have : j = 1 := by omega
  rw [this]
  exact hne

/-- C9: subgroups of three and the ranked contributions 3, 2, 1 give one group,
labelled `A`, and the object returned by `computeGroupStats` holds for it a
`stdContr` that is the square root of `-11/2`, that is `NaN`, not a
non-negative number: `cSumSquared` holds only the square of the last
contribution, and the radicand goes to the square root as it is. -/
theorem computeGroupStats_stdContr_nan :
    ∃ m, doGroupMatching sampleTrioSettings sampleTrioRanked = .ok m ∧
      (∀ grp ∈ m.groups, 3 ≤ grp.length) ∧
      ∃ st, objGet (computeGroupStats sampleTrioSettings m.groups) "A" = some st ∧
        st.stdContr = .sqrt (.fin (-11 / 2)) ∧
        st.stdContr.isNaN = true ∧
        st.stdContr.isNonNegNumber = false := by
  have hm : doGroupMatching sampleTrioSettings sampleTrioRanked
      = .ok { groups := [[⟨"P1", 3, none, some "A"⟩, ⟨"P2", 2, none, some "A"⟩,
                          ⟨"P3", 1, none, some "A"⟩]],
              ranking := ["P1", "P2", "P3"],
              bars := [[(3, none), (2, none), (1, none)]],
              sortedContribs := [⟨"P1", 3, none, some "A"⟩, ⟨"P2", 2, none, some "A"⟩,
                                 ⟨"P3", 1, none, some "A"⟩] } := rfl
  refine ⟨_, hm, by decide, ?_⟩
  have hs : (computeGroupStats.ofGroup sampleTrioSettings
      [⟨"P1", 3, none, some "A"⟩, ⟨"P2", 2, none, some "A"⟩, ⟨"P3", 1, none, some "A"⟩]).stdContr
      = .sqrt (.fin (-11 / 2)) := by
    rw [computeGroupStats.stdContr_large _ _ (by decide)]
    norm_num [computeGroupStats.sums, computeGroupStats.inner]
  refine ⟨_, computeGroupStats.get_of_last sampleTrioSettings _ 0
    [⟨"P1", 3, none, some "A"⟩, ⟨"P2", 2, none, some "A"⟩, ⟨"P3", 1, none, some "A"⟩]
    rfl ?_, hs, ?_, ?_⟩
  · intro j h0 hj
    simp at hj
    omega
  · rw [hs]; norm_num [StatValue.isNaN]
  · rw [hs]; norm_num [StatValue.isNonNegNumber]

/-- C10: for a group whose label no later group has, the object returned by
`computeGroupStats` holds under that label a record whose `stdContr` is the
string `'NA'` exactly when the group has at most two members, and a number
exactly when it has three or more. -/
theorem computeGroupStats_stdContr_NA_iff (s : Settings) (groups : List (List Entry))
    (g : Nat) (grp : List Entry) (hg : groups[g]? = some grp)
    (hlast : ∀ j, g < j → j < groups.length →
      propertyKey s.GROUP_NAMES[j]? ≠ propertyKey s.GROUP_NAMES[g]?) :
    ∃ st, objGet (computeGroupStats s groups) (propertyKey s.GROUP_NAMES[g]?) = some st ∧
      (st.stdContr = .NA ↔ grp.length ≤ 2) ∧
      (st.stdContr.isNumber = true ↔ 3 ≤ grp.length) :=
  ⟨_, computeGroupStats.get_of_last s groups g grp hg hlast,
    computeGroupStats.ofGroup_stdContr_NA_iff s grp⟩

theorem computeGroupStats_stdContr_NA_iff_witness :
    sampleStatsGroups[0]? = some [⟨"P1", 3, none, some "A"⟩, ⟨"P2", 2, none, some "A"⟩,
      ⟨"P3", 1, none, some "A"⟩] ∧
    ∃ st, objGet (computeGroupStats sampleSettings sampleStatsGroups)
        (propertyKey sampleSettings.GROUP_NAMES[0]?) = some st ∧
      (st.stdContr = .NA ↔
        ([⟨"P1", 3, none, some "A"⟩, ⟨"P2", 2, none, some "A"⟩,
          ⟨"P3", 1, none, some "A"⟩] : List Entry).length ≤ 2) ∧
      (st.stdContr.isNumber = true ↔
        3 ≤ ([⟨"P1", 3, none, some "A"⟩, ⟨"P2", 2, none, some "A"⟩,
          ⟨"P3", 1, none, some "A"⟩] : List Entry).length) :=
  ⟨rfl, computeGroupStats_stdContr_NA_iff sampleSettings sampleStatsGroups 0 _ rfl
    (sampleStatsGroups_last sampleSettings sampleStatsGroups rfl (by decide))⟩

/-- C11: for a non-empty group whose label no later group has, the object
returned by `computeGroupStats` holds under that label a record whose
`avgContr` is the sum of the contributions of all members of the group
divided by their number.  For a positive `SUBGROUP_SIZE` no group returned by
`doGroupMatching` is empty, so this holds of each of them. -/
theorem computeGroupStats_avgContr (s : Settings) (groups : List (List Entry))
    (g : Nat) (grp xs : List Entry) (hg : groups[g]? = some grp)
    (hlast : ∀ j, g < j → j < groups.length →
      propertyKey s.GROUP_NAMES[j]? ≠ propertyKey s.GROUP_NAMES[g]?)
    (hne : grp ≠ []) (hk : 0 < s.SUBGROUP_SIZE) :
    (∃ st, objGet (computeGroupStats s groups) (propertyKey s.GROUP_NAMES[g]?) = some st ∧
      st.avgContr = .num (.fin ((grp.map Entry.contribution).sum / (grp.length : ℚ)))) ∧
    ∃ r, doGroupMatching s xs = .ok r ∧
      ∀ (g1 : Nat) (grp1 : List Entry), r.groups[g1]? = some grp1 →
        grp1 ≠ [] ∧
        ((∀ j, g1 < j → j < r.groups.length →
            propertyKey s.GROUP_NAMES[j]? ≠ propertyKey s.GROUP_NAMES[g1]?) →
          ∃ st, objGet (computeGroupStats s r.groups) (propertyKey s.GROUP_NAMES[g1]?)
              = some st ∧
            st.avgContr
              = .num (.fin ((grp1.map Entry.contribution).sum / (grp1.length : ℚ)))) := by
  refine ⟨⟨_, computeGroupStats.get_of_last s groups g grp hg hlast,
    computeGroupStats.avgContr_eq s grp hne⟩, ?_⟩
  obtain ⟨r, hr, hnil⟩ := doGroupMatching_groups_ne_nil s hk xs
  refine ⟨r, hr, ?_⟩
  intro g1 grp1 hg1
  have hne1 : grp1 ≠ [] := hnil grp1 (List.getElem?_mem hg1)
  exact ⟨hne1, fun hl => ⟨_, computeGroupStats.get_of_last s r.groups g1 grp1 hg1 hl,
    computeGroupStats.avgContr_eq s grp1 hne1⟩⟩

theorem computeGroupStats_avgContr_witness :
    sampleStatsGroups[1]? = some [⟨"P4", 1, none, some "B"⟩, ⟨"P5", 0, none, some "B"⟩] ∧
    ([⟨"P4", 1, none, some "B"⟩, ⟨"P5", 0, none, some "B"⟩] : List Entry) ≠ [] ∧
    0 < sampleSettings.SUBGROUP_SIZE ∧
    ∃ st, objGet (computeGroupStats sampleSettings sampleStatsGroups)
        (propertyKey sampleSettings.GROUP_NAMES[1]?) = some st ∧
      st.avgContr
        = .num (.fin ((([⟨"P4", 1, none, some "B"⟩, ⟨"P5", 0, none, some "B"⟩] :
            List Entry).map Entry.contribution).sum
          / ((([⟨"P4", 1, none, some "B"⟩, ⟨"P5", 0, none, some "B"⟩] :
            List Entry).length : ℕ) : ℚ))) :=
  ⟨rfl, by decide, by decide,
    (computeGroupStats_avgContr sampleSettings sampleStatsGroups 1 _ sampleRanked rfl
      (by intro j h1 h2; simp [sampleStatsGroups] at h2; omega)
      (by decide) (by decide)).1⟩

/-- C12: with `ENDO` false every record of the object returned by
`computeGroupStats` has `avgDemand` and `stdDemand` equal to `'NA'`.  With
`ENDO` true the record held for a group whose label no later group has
carries as `avgDemand` the sum of the demands of the members divided by the
group size (the plain quotient of rationals when the group is not empty and
every member has a demand), and its `stdDemand` is `'NA'` exactly when the
group has at most two members. -/
theorem computeGroupStats_demand (s : Settings) (groups : List (List Entry))
    (g : Nat) (grp : List Entry) (hg : groups[g]? = some grp)
    (hlast : ∀ j, g < j → j < groups.length →
      propertyKey s.GROUP_NAMES[j]? ≠ propertyKey s.GROUP_NAMES[g]?) :
    (s.ENDO = false →
      ∀ p ∈ computeGroupStats s groups, p.2.avgDemand = .NA ∧ p.2.stdDemand = .NA) ∧
    ∃ st, objGet (computeGroupStats s groups) (propertyKey s.GROUP_NAMES[g]?) = some st ∧
      (s.ENDO = false → st.avgDemand = .NA ∧ st.stdDemand = .NA) ∧
      (s.ENDO = true →
        st.avgDemand
          = .num (JsNum.div
              ((grp.map (fun e => demandNum e.demand)).foldl JsNum.add (.fin 0))
              (.fin (grp.length : ℚ))) ∧
        (∀ ds : List ℚ, grp ≠ [] → grp.map Entry.demand = ds.map some →
          st.avgDemand = .num (.fin (ds.sum / (grp.length : ℚ)))) ∧
        (st.stdDemand = .NA ↔ grp.length ≤ 2)) := by
  refine ⟨?_, _, computeGroupStats.get_of_last s groups g grp hg hlast,
    (computeGroupStats.ofGroup_demand s grp).1, (computeGroupStats.ofGroup_demand s grp).2⟩
  intro hE p hp
  obtain ⟨grp1, _, h1⟩ := computeGroupStats.mem s groups p hp
  rw [h1]
  exact (computeGroupStats.ofGroup_demand s grp1).1 hE

theorem computeGroupStats_demand_witness :
    (sampleStatsGroups[0]? = some [⟨"P1", 3, none, some "A"⟩, ⟨"P2", 2, none, some "A"⟩,
        ⟨"P3", 1, none, some "A"⟩] ∧
      sampleSettings.ENDO = false ∧
      ∀ p ∈ computeGroupStats sampleSettings sampleStatsGroups,
        p.2.avgDemand = .NA ∧ p.2.stdDemand = .NA) ∧
    (sampleDemandGroups[0]? = some [⟨"P1", 3, some 2, some "A"⟩, ⟨"P2", 2, some 4, some "A"⟩,
        ⟨"P3", 1, some 9, some "A"⟩] ∧
      sampleEndoSettings.ENDO = true ∧
      ∃ st, objGet (computeGroupStats sampleEndoSettings sampleDemandGroups)
          (propertyKey sampleEndoSettings.GROUP_NAMES[0]?) = some st ∧
        st.avgDemand = .num (.fin (([2, 4, 9] : List ℚ).sum
          / ((([⟨"P1", 3, some 2, some "A"⟩, ⟨"P2", 2, some 4, some "A"⟩,
              ⟨"P3", 1, some 9, some "A"⟩] : List Entry).length : ℕ) : ℚ)))) :=
  ⟨⟨rfl, rfl,
      (computeGroupStats_demand sampleSettings sampleStatsGroups 0 _ rfl
        (sampleStatsGroups_last sampleSettings sampleStatsGroups rfl (by decide))).1 rfl⟩,
    ⟨rfl, rfl,
      (computeGroupStats_demand sampleEndoSettings sampleDemandGroups 0 _ rfl
        (sampleStatsGroups_last sampleEndoSettings sampleDemandGroups rfl (by decide))).2.imp
        (fun _ h => ⟨h.1, (h.2.2 rfl).2.1 [2, 4, 9] (by decide) (by decide)⟩)⟩⟩

/-- C13: with a positive `SUBGROUP_SIZE = k` and at least `ceil(n / k)` labels,
`doGroupMatching` gives the entry at rank `i` the label at index `i / k`, the
member `j` of group `g` is the entry at rank `g * k + j` and carries the label
at index `g`; `computeGroupStats` keeps the statistics of group `g` under the
label at index `g` unless a later group has the same label, and with pairwise
distinct labels its result has one property per group, named by the labels in
order. -/
theorem doGroupMatching_labels (s : Settings) (xs : List Entry)
    (hk : 0 < s.SUBGROUP_SIZE)
    (hl : ⌈(xs.length : ℚ) / (s.SUBGROUP_SIZE : ℚ)⌉₊ ≤ s.GROUP_NAMES.length) :
    ∃ r, doGroupMatching s xs = .ok r ∧
      (∀ (i : Nat) (e0 : Entry), xs[i]? = some e0 →
        ∃ label, s.GROUP_NAMES[i / s.SUBGROUP_SIZE]? = some label ∧
          r.sortedContribs[i]? = some { e0 with group := some label }) ∧
      (∀ g j grp e, r.groups[g]? = some grp → grp[j]? = some e →
        r.sortedContribs[g * s.SUBGROUP_SIZE + j]? = some e ∧
        e.group = s.GROUP_NAMES[g]?) ∧
      (∀ g grp, r.groups[g]? = some grp →
        (∀ j, g < j → j < r.groups.length → s.GROUP_NAMES[j]? ≠ s.GROUP_NAMES[g]?) →
        objGet (computeGroupStats s r.groups) (propertyKey s.GROUP_NAMES[g]?)
          = some (computeGroupStats.ofGroup s grp)) ∧
      (s.GROUP_NAMES.Nodup →
        (computeGroupStats s r.groups).map Prod.fst = s.GROUP_NAMES.take r.groups.length ∧
        (computeGroupStats s r.groups).length = r.groups.length) := by
  obtain ⟨r, hr, hsorted, hflat, hsz, _, _⟩ := doGroupMatching_spec s hk xs
  rw [ceil_div_eq _ _ hk] at hl
  have hlen : r.groups.length = (xs.length + s.SUBGROUP_SIZE - 1) / s.SUBGROUP_SIZE := by
    rw [← groupSizes_length _ _ hk, ← hsz, List.length_map]
  have hglen : r.groups.length ≤ s.GROUP_NAMES.length := by rw [hlen]; exact hl
  refine ⟨r, hr, ?_, ?_, ?_, ?_⟩
  · intro i e0 hi
    obtain ⟨hlt, _⟩ := List.getElem?_eq_some.mp hi
    have h1 : i / s.SUBGROUP_SIZE < s.GROUP_NAMES.length := by
      apply lt_of_lt_of_le _ hl
      rw [Nat.div_lt_iff_lt_mul hk]
      exact lt_of_lt_of_le hlt (le_ceil_mul _ _ hk)
    refine ⟨s.GROUP_NAMES[i / s.SUBGROUP_SIZE], List.getElem?_eq_getElem h1, ?_⟩
    rw [hsorted, labelFrom_getElem?, hi, Nat.zero_add, List.getElem?_eq_getElem h1]
    rfl
  · intro g j grp e hg hj
    have h1 : r.sortedContribs[g * s.SUBGROUP_SIZE + j]? = some e := by
      rw [← hflat]
      exact flatten_getElem?_of_sizes s.SUBGROUP_SIZE r.groups
        (fun g' grp' h1 h2 => groups_full_of_sizes _ _ _ hsz g' grp' h1 h2) g j grp e hg hj
    refine ⟨h1, ?_⟩
    have hjk : j < s.SUBGROUP_SIZE := by
      obtain ⟨hlt, _⟩ := List.getElem?_eq_some.mp hj
      exact lt_of_lt_of_le hlt (groups_le_of_sizes _ _ hk _ hsz g grp hg)
    have hdiv : (0 + (g * s.SUBGROUP_SIZE + j)) / s.SUBGROUP_SIZE = g := by
      rw [Nat.zero_add, Nat.add_comm, Nat.add_mul_div_right _ _ hk, Nat.div_eq_of_lt hjk,
        Nat.zero_add]
    rw [hsorted, labelFrom_getElem?, hdiv] at h1
    cases hx : xs[g * s.SUBGROUP_SIZE + j]? with
    | none => simp [hx] at h1
    | some e0 =>
      simp only [hx, Option.map_some', Option.some.injEq] at h1
      rw [← h1]
  · intro g grp hg hdist
    obtain ⟨hlt, _⟩ := List.getElem?_eq_some.mp hg
    apply computeGroupStats.get_of_last s r.groups g grp hg
    intro j hgj hj heq
    apply hdist j hgj hj
    rw [List.getElem?_eq_getElem (lt_of_lt_of_le hj hglen),
      List.getElem?_eq_getElem (lt_of_lt_of_le hlt hglen)] at heq ⊢
    simp only [propertyKey] at heq
    rw [heq]
  · intro hnd
    have hkeys := computeGroupStats.loop_keys s hnd r.groups 0 [] (by simp)
      (by simpa using hglen)
    simp only [Nat.zero_add] at hkeys
    refine ⟨hkeys, ?_⟩
    have := congrArg List.length hkeys
    simp only [List.length_map, List.length_take] at this
    rw [computeGroupStats, this]
    exact min_eq_left hglen

theorem doGroupMatching_labels_witness :
    0 < sampleSettings.SUBGROUP_SIZE ∧
    ⌈((sampleRanked.take 4).length : ℚ) / (sampleSettings.SUBGROUP_SIZE : ℚ)⌉₊
      ≤ sampleSettings.GROUP_NAMES.length ∧
    ∃ r, doGroupMatching sampleSettings (sampleRanked.take 4) = .ok r ∧
      (∀ (i : Nat) (e0 : Entry), (sampleRanked.take 4)[i]? = some e0 →
        ∃ label, sampleSettings.GROUP_NAMES[i / sampleSettings.SUBGROUP_SIZE]? = some label ∧
          r.sortedContribs[i]? = some { e0 with group := some label }) :=
  have hl : ⌈((sampleRanked.take 4).length : ℚ) / (sampleSettings.SUBGROUP_SIZE : ℚ)⌉₊
      ≤ sampleSettings.GROUP_NAMES.length := by
    rw [ceil_div_eq _ _ (by decide)]; decide
  ⟨by decide, hl,
    (doGroupMatching_labels sampleSettings (sampleRanked.take 4) (by decide) hl).imp
      (fun _ h => ⟨h.1, h.2.1⟩)⟩

/-- C14 (counterexample): with two labels, subgroups of two and five entries,
which need three groups, `doGroupMatching` returns a partition into three
groups and raises no error; the fifth entry is left with `group` undefined. -/
theorem doGroupMatching_short_labels_returns :
    sampleSettings.GROUP_NAMES.length
      < ⌈(sampleRanked.length : ℚ) / (sampleSettings.SUBGROUP_SIZE : ℚ)⌉₊ ∧
    ∃ r, doGroupMatching sampleSettings sampleRanked = .ok r ∧
      r.groups.length = 3 ∧
      r.sortedContribs[4]? = some ⟨"E", 1, none, none⟩ := by
  constructor
  · rw [ceil_div_eq _ _ (by decide)]; decide
  · exact ⟨_, rfl, by decide, by decide⟩

/-- C14 (amended): with a positive `SUBGROUP_SIZE = k` and fewer than
`ceil(n / k)` labels, `doGroupMatching` raises no error: it returns the
partition into `ceil(n / k)` groups with the ranking of the input, the entry
at rank `i` carries the label at index `i / k` when there is one, and its
`group` is undefined when the list has no label at that index. -/
theorem doGroupMatching_short_labels (s : Settings) (xs : List Entry)
    (hk : 0 < s.SUBGROUP_SIZE)
    (hl : s.GROUP_NAMES.length < ⌈(xs.length : ℚ) / (s.SUBGROUP_SIZE : ℚ)⌉₊) :
    ∃ r, doGroupMatching s xs = .ok r ∧
      r.groups.length = ⌈(xs.length : ℚ) / (s.SUBGROUP_SIZE : ℚ)⌉₊ ∧
      r.groups.flatten = r.sortedContribs ∧
      r.ranking = xs.map Entry.player ∧
      (∀ (i : Nat) (e0 : Entry), xs[i]? = some e0 →
        r.sortedContribs[i]? = some { e0 with group := s.GROUP_NAMES[i / s.SUBGROUP_SIZE]? }) ∧
      (∀ (i : Nat) (e0 : Entry), xs[i]? = some e0 → s.GROUP_NAMES.length ≤ i / s.SUBGROUP_SIZE →
        r.sortedContribs[i]? = some { e0 with group := none }) ∧
      (∃ (i : Nat) (e0 : Entry), xs[i]? = some e0 ∧ s.GROUP_NAMES.length ≤ i / s.SUBGROUP_SIZE) := by
  obtain ⟨r, hr, hsorted, hflat, hsz, _, hrank⟩ := doGroupMatching_spec s hk xs
  have hget : ∀ (i : Nat) (e0 : Entry), xs[i]? = some e0 →
      r.sortedContribs[i]? = some { e0 with group := s.GROUP_NAMES[i / s.SUBGROUP_SIZE]? } := by
    intro i e0 hi
    rw [hsorted, labelFrom_getElem?, hi, Nat.zero_add]
    rfl
  refine ⟨r, hr, ?_, hflat, hrank, hget, ?_, ?_⟩
  · rw [ceil_div_eq _ _ hk, ← groupSizes_length _ _ hk, ← hsz, List.length_map]
  · intro i e0 hi hle
    rw [hget i e0 hi, List.getElem?_eq_none hle]
  · rw [ceil_div_eq _ _ hk] at hl
    have hpos : 0 < xs.length := by
      rcases Nat.eq_zero_or_pos xs.length with h0 | h0
      · rw [h0, Nat.zero_add, Nat.div_eq_of_lt (by omega)] at hl
        omega
      · exact h0
    refine ⟨xs.length - 1, xs[xs.length - 1], List.getElem?_eq_getElem (by omega), ?_⟩
    have h1 : xs.length + s.SUBGROUP_SIZE - 1 = (xs.length - 1) + 1 * s.SUBGROUP_SIZE := by
      omega
    rw [h1, Nat.add_mul_div_right _ _ hk] at hl
    omega

theorem doGroupMatching_short_labels_witness :
    0 < sampleSettings.SUBGROUP_SIZE ∧
    sampleSettings.GROUP_NAMES.length
      < ⌈(sampleRanked.length : ℚ) / (sampleSettings.SUBGROUP_SIZE : ℚ)⌉₊ ∧
    ∃ r, doGroupMatching sampleSettings sampleRanked = .ok r ∧
      r.groups.length = ⌈(sampleRanked.length : ℚ) / (sampleSettings.SUBGROUP_SIZE : ℚ)⌉₊ :=
  have hl : sampleSettings.GROUP_NAMES.length
      < ⌈(sampleRanked.length : ℚ) / (sampleSettings.SUBGROUP_SIZE : ℚ)⌉₊ := by
    rw [ceil_div_eq _ _ (by decide)]; decide
  ⟨by decide, hl,
    (doGroupMatching_short_labels sampleSettings sampleRanked (by decide) hl).imp
      (fun _ h => ⟨h.1, h.2.1⟩)⟩

/-! ### Positions, bars and payoffs -/

theorem mem_groupPositions (i : Nat) (grp : List Entry) (j0 a b : Nat) (e : Entry) :
    (a, b, e) ∈ groupPositions i j0 grp ↔ a = i ∧ j0 ≤ b ∧ grp[b - j0]? = some e := by
  induction grp generalizing j0 with
  | nil => simp [groupPositions]
  | cons x rest ih =>
    simp only [groupPositions, List.mem_cons, Prod.mk.injEq, ih]
    constructor
    · rintro (⟨h1, h2, h3⟩ | ⟨h1, h2, h3⟩)
      · subst h2
        simp [h1, h3]
      · refine ⟨h1, by omega, ?_⟩
        have : b - j0 = (b - (j0 + 1)) + 1 := by omega
        rw [this, List.getElem?_cons_succ]
        exact h3
    · rintro ⟨h1, h2, h3⟩
      rcases Nat.eq_or_lt_of_le h2 with h4 | h4
      · left
        subst h4
        simp only [Nat.sub_self, List.getElem?_cons_zero, Option.some.injEq] at h3
        exact ⟨h1, rfl, h3.symm⟩
      · right
        have : b - j0 = (b - (j0 + 1)) + 1 := by omega
        rw [this, List.getElem?_cons_succ] at h3
        exact ⟨h1, by omega, h3⟩

theorem mem_roundPositions (groups : List (List Entry)) (i0 a b : Nat) (e : Entry) :
    (a, b, e) ∈ roundPositions i0 groups ↔
      i0 ≤ a ∧ ∃ grp, groups[a - i0]? = some grp ∧ grp[b]? = some e := by
  induction groups generalizing i0 with
  | nil => simp [roundPositions]
  | cons g rest ih =>
    simp only [roundPositions, List.mem_append, mem_groupPositions, ih]
    constructor
    · rintro (⟨h1, _, h3⟩ | ⟨h1, grp, h2, h3⟩)
      · subst h1
        exact ⟨le_refl _, g, by simp, by simpa using h3⟩
      · refine ⟨by omega, grp, ?_, h3⟩
        have : a - i0 = (a - (i0 + 1)) + 1 := by omega
        rw [this, List.getElem?_cons_succ]
        exact h2
    · rintro ⟨h1, grp, h2, h3⟩
      rcases Nat.eq_or_lt_of_le h1 with h4 | h4
      · left
        subst h4
        simp only [Nat.sub_self, List.getElem?_cons_zero, Option.some.injEq] at h2
        subst h2
        exact ⟨rfl, Nat.zero_le _, by simpa using h3⟩
      · right
        have : a - i0 = (a - (i0 + 1)) + 1 := by omega
        rw [this, List.getElem?_cons_succ] at h2
        exact ⟨by omega, grp, h2, h3⟩

theorem groupPositions_players (i : Nat) (grp : List Entry) (j0 : Nat) :
    (groupPositions i j0 grp).map (fun p => p.2.2.player) = grp.map Entry.player := by
  induction grp generalizing j0 with
  | nil => rfl
  | cons x rest ih => simp [groupPositions, ih]

theorem roundPositions_players (groups : List (List Entry)) (i0 : Nat) :
    (roundPositions i0 groups).map (fun p => p.2.2.player)
      = groups.flatten.map Entry.player := by
  induction groups generalizing i0 with
  | nil => rfl
  | cons g rest ih => simp [roundPositions, groupPositions_players, ih]

theorem getPayoff_mirror (s : Settings) (groups : List (List Entry)) (g j : Nat)
    (grp : List Entry) (e : Entry) (hg : groups[g]? = some grp) (hj : grp[j]? = some e) :
    getPayoff s (groups.map (List.map Entry.bar)) (g, j)
      = .ok (JsNum.add (JsNum.sub (.fin s.INITIAL_COINS) (.fin e.contribution))
          (JsNum.div (.fin (grp.map Entry.contribution).sum)
            (.fin s.GROUP_ACCOUNT_DIVIDER))) := by
  have h1 : (groups.map (List.map Entry.bar))[g]? = some (grp.map Entry.bar) := by
    rw [List.getElem?_map, hg]; rfl
  have h2 : (grp.map Entry.bar)[j]? = some e.bar := by
    rw [List.getElem?_map, hj]; rfl
  rw [getPayoff_of_mem s _ g j _ _ h1 h2]
  simp [Entry.bar, List.map_map, Function.comp_def]

/-- C19: for a positive `SUBGROUP_SIZE` the bars returned by `doGroupMatching`
mirror the groups: as many groups, as many members in each, and at every
position the pair of the contribution and the demand of the member there.  So
`getPayoff` raises no error at any position of a member, among them all the
positions that the loops of `finalizeRound` visit, and the payoff there is
computed from that member's own contribution. -/
theorem doGroupMatching_bars_mirror (s : Settings) (xs : List Entry)
    (hk : 0 < s.SUBGROUP_SIZE) :
    ∃ r, doGroupMatching s xs = .ok r ∧
      r.bars.length = r.groups.length ∧
      (∀ (g : Nat) (grp : List Entry), r.groups[g]? = some grp →
        ∃ b, r.bars[g]? = some b ∧ b.length = grp.length) ∧
      (∀ (g j : Nat) (grp : List Entry) (e : Entry),
        r.groups[g]? = some grp → grp[j]? = some e →
        (∃ b, r.bars[g]? = some b ∧ b[j]? = some (e.contribution, e.demand)) ∧
        getPayoff s r.bars (g, j)
          = .ok (JsNum.add (JsNum.sub (.fin s.INITIAL_COINS) (.fin e.contribution))
              (JsNum.div (.fin (grp.map Entry.contribution).sum)
                (.fin s.GROUP_ACCOUNT_DIVIDER)))) ∧
      (∀ p ∈ roundPositions 0 r.groups,
        ∃ v, getPayoff s r.bars (p.1, p.2.1) = .ok v) := by
  obtain ⟨r, hr, _, _, _, hbars, _⟩ := doGroupMatching_spec s hk xs
  refine ⟨r, hr, ?_, ?_, ?_, ?_⟩
  · rw [hbars, List.length_map]
  · intro g grp hg
    refine ⟨grp.map Entry.bar, ?_, by simp⟩
    rw [hbars, List.getElem?_map, hg]; rfl
  · intro g j grp e hg hj
    refine ⟨⟨grp.map Entry.bar, ?_, ?_⟩, ?_⟩
    · rw [hbars, List.getElem?_map, hg]; rfl
    · rw [List.getElem?_map, hj]; rfl
    · rw [hbars]; exact getPayoff_mirror s r.groups g j grp e hg hj
  · rintro ⟨a, b, e⟩ hp
    obtain ⟨_, grp, hg, hj⟩ := (mem_roundPositions r.groups 0 a b e).mp hp
    rw [hbars]
    exact ⟨_, getPayoff_mirror s r.groups a b grp e (by simpa using hg) hj⟩

theorem doGroupMatching_bars_mirror_witness :
    0 < sampleSettings.SUBGROUP_SIZE ∧
    ∃ r, doGroupMatching sampleSettings sampleRanked = .ok r ∧
      r.bars.length = r.groups.length :=
  ⟨by decide,
    (doGroupMatching_bars_mirror sampleSettings sampleRanked (by decide)).imp
      (fun _ h => ⟨h.1, h.2.1⟩)⟩

theorem sendResults.matching_sample :
    sendResults.matching sampleSettings sampleLog sampleRng = .ok sampleMatching := by
  have hd : sendResults.deduplicate sampleLog
      = [⟨"A", 6, none, none⟩, ⟨"B", 4, none, none⟩, ⟨"C", 10, none, none⟩,
         ⟨"D", 4, none, none⟩] := by
    decide
  have hsort : (hostSort sortContributions (sendResults.deduplicate sampleLog) sampleRng).1
      = [⟨"C", 10, none, none⟩, ⟨"A", 6, none, none⟩, ⟨"B", 4, none, none⟩,
         ⟨"D", 4, none, none⟩] := by
    rw [hd]
    norm_num [hostSort, hostSort.insert, sortContributions, mathRandom, sampleRng]
  show doGroupMatching sampleSettings
    (hostSort sortContributions (sendResults.deduplicate sampleLog) sampleRng).1 = _
  rw [hsort]
  rfl

theorem sendResults_sample :
    sendResults sampleSettings false sampleLog sampleRng sampleWorld
      = { world :=
            { registry := [("B", ⟨some (.fin 15)⟩), ("C", ⟨some (.fin 8)⟩),
                           ("D", ⟨some (.fin 10)⟩)],
              said :=
                [⟨"C", sampleMatching.bars, (0, 0), .fin 8, none⟩,
                 ⟨"A", sampleMatching.bars, (0, 1), .fin 12, none⟩,
                 ⟨"B", sampleMatching.bars, (1, 0), .fin 10, none⟩,
                 ⟨"D", sampleMatching.bars, (1, 1), .fin 10, none⟩],
              saved := [] },
          error := none } := by
  simp only [sendResults, sendResults.matching_sample]
  simp [finalizeRound, finalizeRound.outer, finalizeRound.inner, finalizeRound.visit,
    sampleMatching, sampleWorld, getPayoff, getClient, objGet, objSet, sampleSettings,
    computeGroupAccount, JsNum.div, JsNum.add, JsNum.sub, JsNum.neg, newWin, notWin,
    emitPlayersResults]
  norm_num

/-- C15 (counterexample): in the sample round player `A` is ranked second and
its lookup fails.  The run does not skip the delivery to `A`: it ends without
error after one message to each of `C`, `A`, `B`, `D`, the one to `A` with
its payoff 12; `A` stays without client, and `B` and `D` are credited. -/
theorem finalizeRound_failed_lookup_delivers :
    getClient sampleWorld.registry "A" = none ∧
    (sendResults sampleSettings false sampleLog sampleRng sampleWorld).error = none ∧
    (sendResults sampleSettings false sampleLog sampleRng sampleWorld).world.said.map
      (fun msg => (msg.recipient, msg.payoff))
      = [("C", .fin 8), ("A", .fin 12), ("B", .fin 10), ("D", .fin 10)] ∧
    getClient (sendResults sampleSettings false sampleLog sampleRng sampleWorld).world.registry
      "A" = none ∧
    getClient (sendResults sampleSettings false sampleLog sampleRng sampleWorld).world.registry
      "B" = some ⟨some (.fin 15)⟩ ∧
    getClient (sendResults sampleSettings false sampleLog sampleRng sampleWorld).world.registry
      "D" = some ⟨some (.fin 10)⟩ := by
  rw [sendResults_sample]
  exact ⟨rfl, rfl, rfl, rfl, rfl, rfl⟩

/-! ### Balances after the round -/

theorem Credited.nil (s : Settings) (bars : List (List Bar)) (w : World) :
    Credited s bars [] w w := by
  constructor
  · intro _ _; rfl
  · intro p hp; simp at hp
  · simp

theorem Credited.append (s : Settings) (bars : List (List Bar))
    (P Q : List (Nat × Nat × Entry)) (w0 w1 w2 : World)
    (hP : Credited s bars P w0 w1) (hQ : Credited s bars Q w1 w2)
    (hdisj : ∀ id, id ∈ P.map (fun p => p.2.2.player) →
      id ∉ Q.map (fun p => p.2.2.player)) :
    Credited s bars (P ++ Q) w0 w2 := by
  constructor
  · intro id hid
    rw [List.map_append, List.mem_append, not_or] at hid
    rw [hQ.frame id hid.2, hP.frame id hid.1]
  · intro p hp
    rcases List.mem_append.mp hp with h | h
    · obtain ⟨v, h2, h3⟩ := hP.credit p h
      refine ⟨v, h2, ?_⟩
      rw [hQ.frame _ (hdisj _ (List.mem_map_of_mem _ h))]
      exact h3
    · obtain ⟨v, h2, h3⟩ := hQ.credit p h
      refine ⟨v, h2, ?_⟩
      rw [h3, hP.frame]
      intro hin
      exact hdisj _ hin (List.mem_map_of_mem _ h)
  · rw [hQ.said, hP.said, List.map_append, List.append_assoc]

theorem Outcome.eq_of_error_none (o : Outcome) (h : o.error = none) :
    o = { world := o.world, error := none } := by
  cases o with
  | mk w err =>
    simp only at h
    subst h
    rfl

theorem finalizeRound.visit_error (s : Settings) (mongo : Bool) (bars : List (List Bar))
    (compatibility : Option String) (i j : Nat) (e : Entry) (w : World)
    (v : JsNum) (hv : getPayoff s bars (i, j) = .ok v) :
    (finalizeRound.visit s mongo bars compatibility i j e w).error = none := by
  simp only [finalizeRound.visit, hv]

theorem finalizeRound.visit_said (s : Settings) (mongo : Bool) (bars : List (List Bar))
    (compatibility : Option String) (i j : Nat) (e : Entry) (w : World)
    (v : JsNum) (hv : getPayoff s bars (i, j) = .ok v) :
    (finalizeRound.visit s mongo bars compatibility i j e w).world.said.map
        ResultsMessage.recipient
      = w.said.map ResultsMessage.recipient ++ [e.player] := by
  simp only [finalizeRound.visit, hv]
  cases hc : getClient w.registry e.player <;> cases mongo <;> simp [emitPlayersResults]

theorem finalizeRound.visit_spec (s : Settings) (mongo : Bool) (bars : List (List Bar))
    (compatibility : Option String) (i j : Nat) (e : Entry) (w : World)
    (v : JsNum) (hv : getPayoff s bars (i, j) = .ok v) :
    ∃ w1, finalizeRound.visit s mongo bars compatibility i j e w
        = { world := w1, error := none } ∧
      Credited s bars [(i, j, e)] w w1 := by
  refine ⟨(finalizeRound.visit s mongo bars compatibility i j e w).world,
    Outcome.eq_of_error_none _
      (finalizeRound.visit_error s mongo bars compatibility i j e w v hv), ?_⟩
  constructor
  · intro id hid
    have hne : e.player ≠ id := by
      intro h; apply hid; simp [h]
    simp only [finalizeRound.visit, hv]
    cases hc : getClient w.registry e.player <;> cases mongo <;>
      simp [emitPlayersResults, getClient, objGet_objSet, hne]
  · intro p hp
    simp only [List.mem_singleton] at hp
    subst hp
    refine ⟨v, hv, ?_⟩
    simp only [finalizeRound.visit, hv]
    cases hc : getClient w.registry e.player with
    | none =>
      cases mongo <;> simp [emitPlayersResults, hc]
    | some code =>
      cases mongo <;> simp [emitPlayersResults, getClient, objGet_objSet]
  · exact finalizeRound.visit_said s mongo bars compatibility i j e w v hv

theorem finalizeRound.inner_spec (s : Settings) (mongo : Bool) (bars : List (List Bar))
    (compatibility : Option String) (i : Nat) (grp : List Entry) (j : Nat) (w : World)
    (hnd : (grp.map Entry.player).Nodup)
    (hpay : ∀ p ∈ groupPositions i j grp, ∃ v, getPayoff s bars (p.1, p.2.1) = .ok v) :
    ∃ w1, finalizeRound.inner s mongo bars compatibility i j grp w
        = { world := w1, error := none } ∧
      Credited s bars (groupPositions i j grp) w w1 := by
  induction grp generalizing j w with
  | nil => exact ⟨w, rfl, Credited.nil s bars w⟩
  | cons e rest ih =>
    simp only [List.map_cons, List.nodup_cons] at hnd
    obtain ⟨v, hv⟩ := hpay (i, j, e) (by simp [groupPositions])
    obtain ⟨w1, h1, hcr1⟩ :=
      finalizeRound.visit_spec s mongo bars compatibility i j e w v hv
    obtain ⟨w2, h2, hcr2⟩ := ih (j + 1) w1 hnd.2
      (fun p hp => hpay p (by simp [groupPositions, hp]))
    refine ⟨w2, ?_, ?_⟩
    · simp only [finalizeRound.inner, h1, h2]
    · have := Credited.append s bars [(i, j, e)] (groupPositions i (j + 1) rest) w w1 w2
        hcr1 hcr2 (by
          intro id hid
          simp only [List.map_cons, List.map_nil, List.mem_singleton] at hid
          rw [hid, groupPositions_players]
          exact hnd.1)
      simpa [groupPositions] using this

theorem finalizeRound.outer_spec (s : Settings) (mongo : Bool) (bars : List (List Bar))
    (compatibility : Option String) (groups : List (List Entry)) (i : Nat) (w : World)
    (hnd : (groups.flatten.map Entry.player).Nodup)
    (hpay : ∀ p ∈ roundPositions i groups, ∃ v, getPayoff s bars (p.1, p.2.1) = .ok v) :
    ∃ w1, finalizeRound.outer s mongo bars compatibility i groups w
        = { world := w1, error := none } ∧
      Credited s bars (roundPositions i groups) w w1 := by
  induction groups generalizing i w with
  | nil => exact ⟨w, rfl, Credited.nil s bars w⟩
  | cons g rest ih =>
    simp only [List.flatten_cons, List.map_append, List.nodup_append] at hnd
    obtain ⟨hnd1, hnd2, hdisj⟩ := hnd
    obtain ⟨w1, h1, hcr1⟩ := finalizeRound.inner_spec s mongo bars compatibility i g 0 w hnd1
      (fun p hp => hpay p (by simp [roundPositions, hp]))
    obtain ⟨w2, h2, hcr2⟩ := ih (i + 1) w1 hnd2
      (fun p hp => hpay p (by simp [roundPositions, hp]))
    refine ⟨w2, ?_, ?_⟩
    · simp only [finalizeRound.outer, h1, h2]
    · have := Credited.append s bars (groupPositions i 0 g) (roundPositions (i + 1) rest)
        w w1 w2 hcr1 hcr2 (by
          intro id hid hid2
          rw [groupPositions_players] at hid
          rw [roundPositions_players] at hid2
          exact hdisj hid hid2)
      simpa [roundPositions] using this

theorem finalizeRound.inner_said (s : Settings) (mongo : Bool) (bars : List (List Bar))
    (compatibility : Option String) (i : Nat) (grp : List Entry) (j : Nat) (w : World)
    (hpay : ∀ p ∈ groupPositions i j grp, ∃ v, getPayoff s bars (p.1, p.2.1) = .ok v) :
    ∃ w1, finalizeRound.inner s mongo bars compatibility i j grp w
        = { world := w1, error := none } ∧
      w1.said.map ResultsMessage.recipient
        = w.said.map ResultsMessage.recipient ++ grp.map Entry.player := by
  induction grp generalizing j w with
  | nil => exact ⟨w, rfl, by simp⟩
  | cons e rest ih =>
    obtain ⟨v, hv⟩ := hpay (i, j, e) (by simp [groupPositions])
    have h1 := Outcome.eq_of_error_none _
      (finalizeRound.visit_error s mongo bars compatibility i j e w v hv)
    obtain ⟨w2, h2, hs2⟩ := ih (j + 1)
      (finalizeRound.visit s mongo bars compatibility i j e w).world
      (fun p hp => hpay p (by simp [groupPositions, hp]))
    refine ⟨w2, ?_, ?_⟩
    · rw [finalizeRound.inner, h1]
      exact h2
    · rw [hs2, finalizeRound.visit_said s mongo bars compatibility i j e w v hv]
      simp

theorem finalizeRound.outer_said (s : Settings) (mongo : Bool) (bars : List (List Bar))
    (compatibility : Option String) (groups : List (List Entry)) (i : Nat) (w : World)
    (hpay : ∀ p ∈ roundPositions i groups, ∃ v, getPayoff s bars (p.1, p.2.1) = .ok v) :
    ∃ w1, finalizeRound.outer s mongo bars compatibility i groups w
        = { world := w1, error := none } ∧
      w1.said.map ResultsMessage.recipient
        = w.said.map ResultsMessage.recipient ++ groups.flatten.map Entry.player := by
  induction groups generalizing i w with
  | nil => exact ⟨w, rfl, by simp⟩
  | cons g rest ih =>
    obtain ⟨w1, h1, hs1⟩ := finalizeRound.inner_said s mongo bars compatibility i g 0 w
      (fun p hp => hpay p (by simp [roundPositions, hp]))
    obtain ⟨w2, h2, hs2⟩ := ih (i + 1) w1
      (fun p hp => hpay p (by simp [roundPositions, hp]))
    refine ⟨w2, ?_, ?_⟩
    · simp only [finalizeRound.outer, h1, h2]
    · rw [hs2, hs1]
      simp

theorem roundPositions_payoff (s : Settings) (groups : List (List Entry)) :
    ∀ p ∈ roundPositions 0 groups,
      ∃ v, getPayoff s (groups.map (List.map Entry.bar)) (p.1, p.2.1) = .ok v := by
  rintro ⟨a, b, e⟩ hp
  obtain ⟨_, grp, hg, hj⟩ := (mem_roundPositions groups 0 a b e).mp hp
  exact ⟨_, getPayoff_mirror s groups a b grp e (by simpa using hg) hj⟩

/-- The run of `finalizeRound` on groups and the bars that mirror them: it ends
without error after one message per member, in order. -/
theorem finalizeRound.run_said (s : Settings) (mongo : Bool) (groups : List (List Entry))
    (groupStats noisyGroupStats : List (String × GroupStats))
    (ranking noisyRanking : List String) (compatibility : Option String) (w : World) :
    ∃ w1, finalizeRound s mongo (groups.map (List.map Entry.bar)) groupStats ranking
          noisyGroupStats groups noisyRanking compatibility w
        = { world := w1, error := none } ∧
      w1.said.map ResultsMessage.recipient
        = w.said.map ResultsMessage.recipient ++ groups.flatten.map Entry.player := by
  unfold finalizeRound
  cases mongo
  · exact finalizeRound.outer_said s false _ compatibility groups 0 w
      (roundPositions_payoff s groups)
  · exact finalizeRound.outer_said s true _ compatibility groups 0 _
      (roundPositions_payoff s groups)

/-- The run of `finalizeRound` on groups in which each player occurs once and
the bars that mirror them. -/
theorem finalizeRound.run_spec (s : Settings) (mongo : Bool) (groups : List (List Entry))
    (groupStats noisyGroupStats : List (String × GroupStats))
    (ranking noisyRanking : List String) (compatibility : Option String) (w : World)
    (hnd : (groups.flatten.map Entry.player).Nodup) :
    ∃ w1, finalizeRound s mongo (groups.map (List.map Entry.bar)) groupStats ranking
          noisyGroupStats groups noisyRanking compatibility w
        = { world := w1, error := none } ∧
      Credited s (groups.map (List.map Entry.bar)) (roundPositions 0 groups) w w1 := by
  have hstart : ∀ w0 : World, w0.registry = w.registry → w0.said = w.said →
      ∃ w1, finalizeRound.outer s mongo (groups.map (List.map Entry.bar)) compatibility 0
            groups w0 = { world := w1, error := none } ∧
        Credited s (groups.map (List.map Entry.bar)) (roundPositions 0 groups) w w1 := by
    intro w0 hr0 hs0
    obtain ⟨w1, h1, hcr⟩ := finalizeRound.outer_spec s mongo
      (groups.map (List.map Entry.bar)) compatibility groups 0 w0 hnd
      (roundPositions_payoff s groups)
    refine ⟨w1, h1, ?_⟩
    constructor
    · intro id hid; rw [hcr.frame id hid, hr0]
    · intro p hp
      obtain ⟨v, h3, h4⟩ := hcr.credit p hp
      exact ⟨v, h3, by rw [h4, hr0]⟩
    · rw [hcr.said, hs0]
  unfold finalizeRound
  cases mongo
  · exact hstart w rfl rfl
  · exact hstart _ rfl rfl

theorem newWin_eq_creditedWin (win : Option JsNum) (v : JsNum) :
    newWin win v = creditedWin win v := by
  cases win with
  | none => cases v <;> simp [newWin, notWin, creditedWin, previousWin, JsNum.add]
  | some u =>
    cases u with
    | fin q =>
      by_cases hq : q = 0
      · cases v <;> simp [newWin, notWin, creditedWin, previousWin, JsNum.add, hq]
      · simp [newWin, notWin, creditedWin, previousWin, hq]
    | posInf => simp [newWin, notWin, creditedWin, previousWin]
    | negInf => simp [newWin, notWin, creditedWin, previousWin]
    | nan => simp [newWin, notWin, creditedWin]

/-- C15 (amended): when the lookup fails for some player, `finalizeRound` does
not abort and skips nothing but the effect of the balance update: run on
groups and the bars that mirror them it ends without error after one message
per member of the round, the member without client included, in ranking
order.  When each player occurs once in the groups, a member without client
stays without, every member with a client has its balance replaced by
`newWin` of its old balance and its payoff, and the clients of players
outside the round are as before. -/
theorem finalizeRound_failed_lookup_continues (s : Settings) (mongo : Bool)
    (groups : List (List Entry)) (groupStats noisyGroupStats : List (String × GroupStats))
    (ranking noisyRanking : List String) (compatibility : Option String) (w : World) :
    ∃ w1, finalizeRound s mongo (groups.map (List.map Entry.bar)) groupStats ranking
          noisyGroupStats groups noisyRanking compatibility w
        = { world := w1, error := none } ∧
      w1.said.map ResultsMessage.recipient
        = w.said.map ResultsMessage.recipient ++ groups.flatten.map Entry.player ∧
      ((groups.flatten.map Entry.player).Nodup →
        (∀ (g j : Nat) (grp : List Entry) (e : Entry),
          groups[g]? = some grp → grp[j]? = some e →
          ∃ v, getPayoff s (groups.map (List.map Entry.bar)) (g, j) = .ok v ∧
            (getClient w.registry e.player = none →
              getClient w1.registry e.player = none) ∧
            (∀ code, getClient w.registry e.player = some code →
              getClient w1.registry e.player = some ⟨some (newWin code.win v)⟩)) ∧
        (∀ id, id ∉ groups.flatten.map Entry.player →
          getClient w1.registry id = getClient w.registry id)) := by
  obtain ⟨w1, h1, hs1⟩ := finalizeRound.run_said s mongo groups groupStats noisyGroupStats
    ranking noisyRanking compatibility w
  refine ⟨w1, h1, hs1, ?_⟩
  intro hnd
  obtain ⟨w2, h2, hcr⟩ := finalizeRound.run_spec s mongo groups groupStats noisyGroupStats
    ranking noisyRanking compatibility w hnd
  have hw : w2 = w1 := by
    rw [h1] at h2
    injection h2 with h2
    exact h2.symm
  rw [hw] at hcr
  constructor
  · intro g j grp e hg hj
    have hp : (g, j, e) ∈ roundPositions 0 groups :=
      (mem_roundPositions groups 0 g j e).mpr ⟨Nat.zero_le _, grp, by simpa using hg, hj⟩
    obtain ⟨v, h3, h4⟩ := hcr.credit _ hp
    simp only at h3 h4
    refine ⟨v, h3, ?_, ?_⟩
    · intro hnone
      rw [h4, hnone]; rfl
    · intro code hsome
      rw [h4, hsome]; rfl
  · intro id hid
    apply hcr.frame
    rw [roundPositions_players]
    exact hid

theorem finalizeRound_failed_lookup_continues_witness :
    getClient sampleWorld.registry "A" = none ∧
    (sampleMatching.groups.flatten.map Entry.player).Nodup ∧
    ∃ w1, finalizeRound sampleSettings false (sampleMatching.groups.map (List.map Entry.bar))
          [] sampleMatching.ranking [] sampleMatching.groups sampleMatching.ranking none
          sampleWorld
        = { world := w1, error := none } ∧
      w1.said.map ResultsMessage.recipient
        = sampleWorld.said.map ResultsMessage.recipient
          ++ sampleMatching.groups.flatten.map Entry.player ∧
      (∀ id, id ∉ sampleMatching.groups.flatten.map Entry.player →
        getClient w1.registry id = getClient sampleWorld.registry id) :=
  ⟨rfl, by decide,
    (finalizeRound_failed_lookup_continues sampleSettings false sampleMatching.groups [] []
      sampleMatching.ranking sampleMatching.ranking none sampleWorld).imp
      (fun _ h => ⟨h.1, h.2.1, (h.2.2 (by decide)).2⟩)⟩

theorem finalizeRound_nan_sample :
    finalizeRound sampleSettings false sampleMatching.bars [] sampleMatching.ranking []
        sampleMatching.groups sampleMatching.ranking none sampleNaNWorld
      = { world :=
            { registry := [("A", ⟨some (.fin 12)⟩), ("B", ⟨some (.fin 15)⟩),
                           ("C", ⟨some (.fin 8)⟩), ("D", ⟨some (.fin 10)⟩)],
              said :=
                [⟨"C", sampleMatching.bars, (0, 0), .fin 8, none⟩,
                 ⟨"A", sampleMatching.bars, (0, 1), .fin 12, none⟩,
                 ⟨"B", sampleMatching.bars, (1, 0), .fin 10, none⟩,
                 ⟨"D", sampleMatching.bars, (1, 1), .fin 10, none⟩],
              saved := [] },
          error := none } := by
  simp [finalizeRound, finalizeRound.outer, finalizeRound.inner, finalizeRound.visit,
    sampleMatching, sampleNaNWorld, getPayoff, getClient, objGet, objSet, sampleSettings,
    computeGroupAccount, JsNum.div, JsNum.add, JsNum.sub, JsNum.neg, newWin, notWin,
    emitPlayersResults]
  norm_num

/-- C20 (counterexample): in the sample round each player occurs once and every
lookup succeeds, and the balance of `A` is `NaN` before the round.  The payoff
of `A`, at position `(0, 1)`, is 12, and after `finalizeRound` the balance of
`A` is 12, while its previous balance plus the payoff is `NaN`. -/
theorem finalizeRound_nan_balance_reset :
    (sampleMatching.groups.flatten.map Entry.player).Nodup ∧
    (∀ e ∈ sampleMatching.groups.flatten,
      getClient sampleNaNWorld.registry e.player ≠ none) ∧
    getClient sampleNaNWorld.registry "A" = some ⟨some .nan⟩ ∧
    getPayoff sampleSettings sampleMatching.bars (0, 1) = .ok (.fin 12) ∧
    getClient (finalizeRound sampleSettings false sampleMatching.bars [] sampleMatching.ranking
      [] sampleMatching.groups sampleMatching.ranking none sampleNaNWorld).world.registry "A"
      = some ⟨some (.fin 12)⟩ ∧
    JsNum.add (previousWin (some .nan)) (.fin 12) = .nan ∧
    (.fin 12 : JsNum) ≠ JsNum.add (previousWin (some .nan)) (.fin 12) := by
  rw [finalizeRound_nan_sample]
  refine ⟨by decide, by decide, rfl, ?_, rfl, rfl, by decide⟩
  norm_num [getPayoff, sampleSettings, sampleMatching, computeGroupAccount, JsNum.div,
    JsNum.add, JsNum.sub, JsNum.neg]

/-- C20 (amended): in a round where each player occurs once in the groups and
every lookup succeeds, run on the bars that mirror the groups, `finalizeRound`
ends without error; the balance of each member is then its previous balance
(`0` when not set) plus the payoff `getPayoff` gives at its position (for a
non-zero divider the rational `INITIAL_COINS - c + T / GROUP_ACCOUNT_DIVIDER`),
but the payoff alone when the previous balance was `NaN`; every client of a
player outside the round is as before; and one message per member was sent,
in ranking order. -/
theorem finalizeRound_balances (s : Settings) (mongo : Bool) (groups : List (List Entry))
    (groupStats noisyGroupStats : List (String × GroupStats))
    (ranking noisyRanking : List String) (compatibility : Option String) (w : World)
    (hnd : (groups.flatten.map Entry.player).Nodup)
    (hreg : ∀ e ∈ groups.flatten, getClient w.registry e.player ≠ none) :
    ∃ w1, finalizeRound s mongo (groups.map (List.map Entry.bar)) groupStats ranking
          noisyGroupStats groups noisyRanking compatibility w
        = { world := w1, error := none } ∧
      (∀ (g j : Nat) (grp : List Entry) (e : Entry),
        groups[g]? = some grp → grp[j]? = some e →
        ∃ code v, getClient w.registry e.player = some code ∧
          getPayoff s (groups.map (List.map Entry.bar)) (g, j) = .ok v ∧
          (s.GROUP_ACCOUNT_DIVIDER ≠ 0 →
            v = .fin (s.INITIAL_COINS - e.contribution
              + (grp.map Entry.contribution).sum / s.GROUP_ACCOUNT_DIVIDER)) ∧
          getClient w1.registry e.player
            = some ⟨some (if code.win = some .nan then v
                else JsNum.add (previousWin code.win) v)⟩) ∧
      (∀ id, id ∉ groups.flatten.map Entry.player →
        getClient w1.registry id = getClient w.registry id) ∧
      w1.said.map ResultsMessage.recipient
        = w.said.map ResultsMessage.recipient ++ groups.flatten.map Entry.player := by
  obtain ⟨w1, h1, hcr⟩ := finalizeRound.run_spec s mongo groups groupStats noisyGroupStats
    ranking noisyRanking compatibility w hnd
  refine ⟨w1, h1, ?_, ?_, ?_⟩
  · intro g j grp e hg hj
    have hp : (g, j, e) ∈ roundPositions 0 groups :=
      (mem_roundPositions groups 0 g j e).mpr ⟨Nat.zero_le _, grp, by simpa using hg, hj⟩
    obtain ⟨v, h3, h4⟩ := hcr.credit _ hp
    simp only at h3 h4
    obtain ⟨code, hc⟩ := Option.ne_none_iff_exists'.mp
      (hreg e (List.mem_flatten.mpr ⟨grp, List.getElem?_mem hg, List.getElem?_mem hj⟩))
    have hv := getPayoff_mirror s groups g j grp e hg hj
    refine ⟨code, v, hc, h3, ?_, ?_⟩
    · intro hd
      rw [hv] at h3
      injection h3 with h3
      rw [← h3]
      simp [JsNum.add, JsNum.sub, JsNum.neg, JsNum.div, hd, sub_eq_add_neg]
    · rw [h4, hc]
      simp only [Option.map_some']
      rw [newWin_eq_creditedWin]
      rfl
  · intro id hid
    apply hcr.frame
    rw [roundPositions_players]
    exact hid
  · rw [hcr.said, roundPositions_players]

theorem finalizeRound_balances_witness :
    (sampleMatching.groups.flatten.map Entry.player).Nodup ∧
    (∀ e ∈ sampleMatching.groups.flatten, getClient sampleFullWorld.registry e.player ≠ none) ∧
    ∃ w1, finalizeRound sampleSettings false (sampleMatching.groups.map (List.map Entry.bar))
          [] sampleMatching.ranking [] sampleMatching.groups sampleMatching.ranking none
          sampleFullWorld
        = { world := w1, error := none } ∧
      w1.said.map ResultsMessage.recipient
        = sampleFullWorld.said.map ResultsMessage.recipient
          ++ sampleMatching.groups.flatten.map Entry.player :=
  ⟨by decide, by decide,
    (finalizeRound_balances sampleSettings false sampleMatching.groups [] []
      sampleMatching.ranking sampleMatching.ranking none sampleFullWorld
      (by decide) (by decide)).imp
      (fun _ h => ⟨h.1, h.2.2.2⟩)⟩

/-! ### The worked example -/

theorem example_sorted (log : List Entry) (r : Rng) (hlog : log.Perm exampleSubmissions) :
    (hostSort sortContributions log r).1
      = [⟨"C", 10, none, none⟩, ⟨"A", 6, none, none⟩, ⟨"B", 4, none, none⟩,
         ⟨"D", 2, none, none⟩] := by
  have hperm : (hostSort sortContributions log r).1.Perm exampleSubmissions :=
    (hostSort_perm _ _ _).trans hlog
  have hsorted := hostSort_sorted log r
  have hmem : ∀ y ∈ (hostSort sortContributions log r).1, y ∈ exampleSubmissions :=
    fun y hy => hperm.mem_iff.mp hy
  have hs1 : ((hostSort sortContributions log r).1.map Entry.contribution).Sorted (· ≥ ·) := by
    rw [List.Sorted, List.pairwise_map]
    exact hsorted
  have hs2 : ([10, 6, 4, 2] : List ℚ).Sorted (· ≥ ·) := by
    norm_num [List.Sorted]
  have hp2 : ((hostSort sortContributions log r).1.map Entry.contribution).Perm
      ([10, 6, 4, 2] : List ℚ) := by
    refine (hperm.map Entry.contribution).trans ?_
    simp only [exampleSubmissions, List.map_cons, List.map_nil]
    exact List.Perm.trans (@List.perm_append_comm ℚ [6, 4] [10, 2])
      (List.Perm.cons _ (List.Perm.trans (@List.perm_append_comm ℚ [2] [6, 4])
        (List.Perm.refl _)))
  have hmap := List.eq_of_perm_of_sorted hp2 hs1 hs2
  generalize (hostSort sortContributions log r).1 = ys at hmap hmem
  simp only [List.map_eq_cons_iff, List.map_eq_nil_iff] at hmap
  obtain ⟨y1, t1, rfl, h1, y2, t2, rfl, h2, y3, t3, rfl, h3, y4, t4, rfl, h4, rfl⟩ := hmap
  have m1 := hmem y1 (by simp)
  have m2 := hmem y2 (by simp)
  have m3 := hmem y3 (by simp)
  have m4 := hmem y4 (by simp)
  simp only [exampleSubmissions, List.mem_cons, List.mem_singleton, List.not_mem_nil,
    or_false] at m1 m2 m3 m4
  have e1 : y1 = ⟨"C", 10, none, none⟩ := by
    rcases m1 with rfl | rfl | rfl | rfl <;> first | rfl | (norm_num at h1)
  have e2 : y2 = ⟨"A", 6, none, none⟩ := by
    rcases m2 with rfl | rfl | rfl | rfl <;> first | rfl | (norm_num at h2)
  have e3 : y3 = ⟨"B", 4, none, none⟩ := by
    rcases m3 with rfl | rfl | rfl | rfl <;> first | rfl | (norm_num at h3)
  have e4 : y4 = ⟨"D", 2, none, none⟩ := by
    rcases m4 with rfl | rfl | rfl | rfl <;> first | rfl | (norm_num at h4)
  rw [e1, e2, e3, e4]

theorem example_matching (moreNames : List String) (endo : Bool) (log : List Entry)
    (r : Rng) (hlog : log.Perm exampleSubmissions) :
    sendResults.matching (exampleSettings moreNames endo) log r
      = .ok { groups := exampleGroups,
              ranking := ["C", "A", "B", "D"],
              bars := [[(10, none), (6, none)], [(4, none), (2, none)]],
              sortedContribs := exampleGroups.flatten } := by
  have hnd : (log.map Entry.player).Nodup := by
    rw [(hlog.map Entry.player).nodup_iff]
    decide
  show doGroupMatching (exampleSettings moreNames endo)
    (hostSort sortContributions (sendResults.deduplicate log) r).1 = _
  rw [deduplicate_of_nodup log hnd, example_sorted log r hlog]
  simp [doGroupMatching, doGroupMatching.loop, doGroupMatching.step, exampleSettings,
    arrayAssign, pushAt, nameAt, Entry.bar, exampleGroups]

/-- C17: the worked example.  With subgroups of two, ten initial coins, divider
2, labels that start with `A`, `B`, and the submissions `A` 6, `B` 4, `C` 10,
`D` 2 in any arrival order and for any draws: the ranking is `C, A, B, D`; the
groups are `C, A` labelled `A` and `B, D` labelled `B`; the payoffs at the
four positions are 8, 12, 9 and 11; the statistics under `A` have `avgContr`
8 and `stdContr` `'NA'`; and with the four players registered the run ends
without error after one message to each of `C`, `A`, `B`, `D` with these
payoffs. -/
theorem sendResults_worked_example (moreNames : List String) (endo : Bool)
    (log : List Entry) (r : Rng) (hlog : log.Perm exampleSubmissions) :
    ∃ m, sendResults.matching (exampleSettings moreNames endo) log r = .ok m ∧
      m.ranking = ["C", "A", "B", "D"] ∧
      m.groups = exampleGroups ∧
      getPayoff (exampleSettings moreNames endo) m.bars (0, 0) = .ok (.fin 8) ∧
      getPayoff (exampleSettings moreNames endo) m.bars (0, 1) = .ok (.fin 12) ∧
      getPayoff (exampleSettings moreNames endo) m.bars (1, 0) = .ok (.fin 9) ∧
      getPayoff (exampleSettings moreNames endo) m.bars (1, 1) = .ok (.fin 11) ∧
      (∃ st, objGet (computeGroupStats (exampleSettings moreNames endo) m.groups) "A"
          = some st ∧
        st.avgContr = .num (.fin 8) ∧ st.stdContr = .NA) ∧
      (sendResults (exampleSettings moreNames endo) false log r sampleFullWorld).error
        = none ∧
      (sendResults (exampleSettings moreNames endo) false log r sampleFullWorld).world.said.map
          (fun msg => (msg.recipient, msg.position, msg.payoff))
        = [("C", (0, 0), .fin 8), ("A", (0, 1), .fin 12), ("B", (1, 0), .fin 9),
           ("D", (1, 1), .fin 11)] := by
  have hm := example_matching moreNames endo log r hlog
  have hrun : sendResults (exampleSettings moreNames endo) false log r sampleFullWorld
      = { world :=
            { registry := [("A", ⟨some (.fin 12)⟩), ("B", ⟨some (.fin 14)⟩),
                           ("C", ⟨some (.fin 8)⟩), ("D", ⟨some (.fin 11)⟩)],
              said :=
                [⟨"C", [[(10, none), (6, none)], [(4, none), (2, none)]], (0, 0), .fin 8, none⟩,
                 ⟨"A", [[(10, none), (6, none)], [(4, none), (2, none)]], (0, 1), .fin 12, none⟩,
                 ⟨"B", [[(10, none), (6, none)], [(4, none), (2, none)]], (1, 0), .fin 9, none⟩,
                 ⟨"D", [[(10, none), (6, none)], [(4, none), (2, none)]], (1, 1), .fin 11, none⟩],
              saved := [] },
          error := none } := by
    simp only [sendResults, hm]
    simp [finalizeRound, finalizeRound.outer, finalizeRound.inner, finalizeRound.visit,
      exampleGroups, sampleFullWorld, getPayoff, getClient, objGet, objSet, exampleSettings,
      computeGroupAccount, JsNum.div, JsNum.add, JsNum.sub, JsNum.neg, newWin, notWin,
      emitPlayersResults]
    norm_num
  refine ⟨_, hm, rfl, rfl, ?_, ?_, ?_, ?_, ?_, ?_, ?_⟩
  · norm_num [getPayoff, exampleSettings, computeGroupAccount, JsNum.div, JsNum.add,
      JsNum.sub, JsNum.neg]
  · norm_num [getPayoff, exampleSettings, computeGroupAccount, JsNum.div, JsNum.add,
      JsNum.sub, JsNum.neg]
  · norm_num [getPayoff, exampleSettings, computeGroupAccount, JsNum.div, JsNum.add,
      JsNum.sub, JsNum.neg]
  · norm_num [getPayoff, exampleSettings, computeGroupAccount, JsNum.div, JsNum.add,
      JsNum.sub, JsNum.neg]
  · refine ⟨computeGroupStats.ofGroup (exampleSettings moreNames endo)
      [⟨"C", 10, none, some "A"⟩, ⟨"A", 6, none, some "A"⟩], ?_, ?_, ?_⟩
    · simp [computeGroupStats, computeGroupStats.loop, exampleGroups, exampleSettings,
        propertyKey, objSet, objGet]
    · norm_num [computeGroupStats.ofGroup, computeGroupStats.sums, computeGroupStats.inner,
        JsNum.div]
    · norm_num [computeGroupStats.ofGroup]
  · rw [hrun]
  · rw [hrun]
    rfl

theorem sendResults_worked_example_witness :
    exampleSubmissions.reverse.Perm exampleSubmissions ∧
    ∃ m, sendResults.matching (exampleSettings ["C"] false) exampleSubmissions.reverse sampleRng
        = .ok m ∧
      m.ranking = ["C", "A", "B", "D"] :=
  ⟨List.reverse_perm _,
    (sendResults_worked_example ["C"] false exampleSubmissions.reverse sampleRng
      (List.reverse_perm _)).imp (fun _ h => ⟨h.1, h.2.1⟩)⟩

end PGG
